import Mathlib

/-!
The linux-kmod `xx` character driver: a shallow embedding of `src/linux/xx.c`.

The driver presents character devices backed by page-cache pages.  This file
embeds the read/write path, the map-fault handler, the unit table with its
reference counts, and module start-up/tear-down, and proves properties of them.

Conventions of the embedding:

* `loff_t` / `ssize_t` values are `Int`, wrapped to 64-bit two's complement by
  `s64`; `ulong` / `size_t` values are `Nat`, reduced by `u64`.
* Kernel macros that the source uses but does not define (`PAGE_CACHE_SHIFT`,
  errno values, `VM_FAULT_*`, `MINORBITS`) are either parameters
  (`shift`) or constants with their Linux values.
* Kernel services are environment oracles: `alloc` is the page allocator
  (`none` is an allocation failure, `some frame` hands out a page frame with
  the bytes it happens to hold: `GFP_KERNEL` carries no `__GFP_ZERO`), `cp` is
  the residue `copy_to_user` / `copy_from_user` report for a copy of a given
  length at a given user-buffer displacement.
* `zp pgoff` is the kernel memory at the pointer `ZERO_PAGE(pgoff)`, read as
  bytes from that address on.  `ZERO_PAGE` yields a `struct page *`, and
  `xx_read` hands it to `copy_to_user` as it is, so what a read copies where no
  page is resident is this memory and not the contents of the zero page.
* File positions are those the VFS passes to a driver: `rw_verify_area` rejects
  a negative position and a position whose sum with the count overflows, so
  the theorems about `xx_read` / `xx_write` take a position `p ≥ 0` with
  `p + size < 2 ^ 63`.
* The unit table is modelled sequentially; locks and atomics are not modelled.
-/

namespace XX

/-! ## Machine integers and kernel constants -/

/-- Reduction of an integer to an `unsigned long` (64 bit). -/
def u64 (x : Int) : Nat := (x % 18446744073709551616).toNat

/-- Reduction of an integer to a signed 64-bit value (`loff_t`, `ssize_t`). -/
def s64 (x : Int) : Int := (x + 9223372036854775808) % 18446744073709551616 - 9223372036854775808

def ENOMEM : Int := 12
def EFAULT : Int := 14
def ENODEV : Int := 19
def EINVAL : Int := 22
def ENOTTY : Int := 25

def VM_FAULT_OOM : Nat := 1
def VM_FAULT_MAJOR : Nat := 4

/-- `PAGE_CACHE_SIZE` is `1UL << PAGE_CACHE_SHIFT`. -/
def PAGE_CACHE_SIZE (shift : Nat) : Nat := u64 ((1 <<< shift : Nat) : Int)

/-! ## Pages and the page cache of one device inode -/

abbrev Byte := Fin 256

/-- One page-cache page: its memory (`page_address`), indexed by the byte
offset inside the page, and the page flags the driver reads or writes. -/
structure Page where
  data : Nat → Byte
  uptodate : Bool
  dirty : Bool
  reserved : Bool

/-- The `address_space` of a device inode: page index to page, `none` where no
page is resident. -/
abbrev AddressSpace := Nat → Option Page

/-- Install page `pg` at index `pgoff`. -/
def AddressSpace.set (m : AddressSpace) (pgoff : Nat) (pg : Page) : AddressSpace :=
  fun i => if i = pgoff then some pg else m i

/-- `find_lock_page`: the resident page at `pgoff`, or `NULL`. -/
def find_lock_page (m : AddressSpace) (pgoff : Nat) : Option Page := m pgoff

/-- `find_or_create_page(mapping, pgoff, GFP_KERNEL)`: the resident page, or a
newly allocated page inserted at `pgoff`.  A new page holds whatever the frame
held and has no flag set; `none` is an allocation failure. -/
def find_or_create_page (alloc : Nat → Option (Nat → Byte)) (m : AddressSpace) (pgoff : Nat) :
    Option (Page × AddressSpace) :=
  match m pgoff with
  | some pg => some (pg, m)
  | none =>
    match alloc pgoff with
    | none => none
    | some frame =>
      let pg : Page := { data := frame, uptodate := false, dirty := false, reserved := false }
      some (pg, m.set pgoff pg)

/-! ## Sub-range geometry shared by `xx_read` and `xx_write` -/

/-- `pgoff = *loff >> PAGE_CACHE_SHIFT` (assigned to a `ulong`). -/
def xx_pgoff (shift : Nat) (loff : Int) : Nat := u64 (loff >>> shift)

/-- `offset = *loff - (pgoff << PAGE_CACHE_SHIFT)` in `ulong` arithmetic. -/
def xx_offset (shift : Nat) (loff : Int) : Nat :=
  u64 (loff - (u64 ((xx_pgoff shift loff <<< shift : Nat) : Int) : Int))

/-- `length = min_t(size_t, PAGE_CACHE_SIZE - offset, nleft)`. -/
def xx_length (shift : Nat) (loff : Int) (nleft : Nat) : Nat :=
  min (u64 ((PAGE_CACHE_SIZE shift : Int) - (xx_offset shift loff : Int))) nleft

/-! ## `xx_read` -/

/-- What a read or write call leaves behind: the value returned, the file
position, the page cache, and the user buffer. -/
structure IOResult where
  ret : Int
  loff : Int
  mapping : AddressSpace
  ubuf : Nat → Byte

/-- Memory `dst` after `n` bytes of `src` are copied to displacement `at_`.  It is
what `copy_to_user(ubuf + at_, src, length)` leaves in the user buffer when it
copies `n` bytes of the `length` asked for. -/
def copy_bytes (dst : Nat → Byte) (at_ : Nat) (src : Nat → Byte) (n : Nat) : Nat → Byte :=
  fun j => if at_ ≤ j ∧ j < at_ + n then src (j - at_) else dst j

/-- Memory `dst` after `copy_from_user(dst + at_, src, n)` reports `resid` bytes
not copied: the first `n - resid` bytes are those of `src`, and the kernel pads
the `resid` bytes it could not fill with zero bytes. -/
def copy_from_user (dst : Nat → Byte) (at_ : Nat) (src : Nat → Byte) (n resid : Nat) :
    Nat → Byte :=
  fun j =>
    if at_ + (n - resid) ≤ j ∧ j < at_ + n then 0
    else copy_bytes dst at_ src (n - resid) j

/-- The loop of `xx_read`.  `u` is the displacement of the advancing `ubuf`
pointer from the caller's buffer; `fuel` bounds the number of iterations.  With
a resident page the source of the copy is `page_address(page) + offset`; with
none it is the pointer `ZERO_PAGE(pgoff)` itself, whose memory is `zp pgoff`. -/
def xx_read_loop (shift : Nat) (zp : Nat → Nat → Byte) (cp : Nat → Nat → Nat) (size : Nat) :
    Nat → AddressSpace → (Nat → Byte) → Int → Nat → Nat → Option IOResult
  | fuel, mapping, ubuf, loff, nleft, u =>
    if nleft = 0 then
      some { ret := s64 ((size - nleft : Nat) : Int), loff := loff, mapping := mapping, ubuf := ubuf }
    else
      match fuel with
      | 0 => none
      | fuel + 1 =>
        let pgoff := xx_pgoff shift loff
        let offset := xx_offset shift loff
        let length := xx_length shift loff nleft
        let src : Nat → Byte :=
          match find_lock_page mapping pgoff with
          | some page => fun i => page.data (offset + i)
          | none => fun i => zp pgoff i
        let resid := min (cp u length) length
        let ubuf1 := copy_bytes ubuf u src (length - resid)
        if 0 < resid then
          let nleft1 := nleft - (length - resid)
          let loff1 := s64 (loff + ((length - resid : Nat) : Int))
          some { ret := if nleft1 < size then s64 ((size - nleft1 : Nat) : Int) else -EFAULT,
                 loff := loff1, mapping := mapping, ubuf := ubuf1 }
        else
          xx_read_loop shift zp cp size fuel mapping ubuf1 (s64 (loff + (length : Int)))
            (nleft - length) (u + length)

/-- `xx_read(fp, ubuf, size, loff)` on the page cache `mapping` of `fp`. -/
def xx_read (shift : Nat) (zp : Nat → Nat → Byte) (cp : Nat → Nat → Nat)
    (mapping : AddressSpace) (ubuf : Nat → Byte) (size : Nat) (loff : Int) : Option IOResult :=
  xx_read_loop shift zp cp size size mapping ubuf loff size 0

/-! ## `xx_write` -/

/-- `SetPageDirty` unless the page is reserved, then `SetPageUptodate`. -/
def mark_written (pg : Page) : Page :=
  { pg with dirty := if pg.reserved then pg.dirty else true, uptodate := true }

/-- The loop of `xx_write`; `ubuf` is the caller's source buffer. -/
def xx_write_loop (shift : Nat) (alloc : Nat → Option (Nat → Byte)) (cp : Nat → Nat → Nat)
    (ubuf : Nat → Byte) (size : Nat) :
    Nat → AddressSpace → Int → Nat → Nat → Option IOResult
  | fuel, mapping, loff, nleft, u =>
    if nleft = 0 then
      some { ret := s64 ((size - nleft : Nat) : Int), loff := loff, mapping := mapping, ubuf := ubuf }
    else
      match fuel with
      | 0 => none
      | fuel + 1 =>
        let pgoff := xx_pgoff shift loff
        let offset := xx_offset shift loff
        let length := xx_length shift loff nleft
        match find_or_create_page alloc mapping pgoff with
        | none =>
          some { ret := if nleft < size then s64 ((size - nleft : Nat) : Int) else -ENOMEM,
                 loff := loff, mapping := mapping, ubuf := ubuf }
        | some (page, mapping1) =>
          let resid := min (cp u length) length
          let page1 : Page :=
            { page with data := copy_from_user page.data offset (fun i => ubuf (u + i)) length resid }
          if 0 < resid then
            let nleft1 := nleft - (length - resid)
            let loff1 := s64 (loff + ((length - resid : Nat) : Int))
            some { ret := if nleft1 < size then s64 ((size - nleft1 : Nat) : Int) else -EFAULT,
                   loff := loff1, mapping := mapping1.set pgoff page1, ubuf := ubuf }
          else
            xx_write_loop shift alloc cp ubuf size fuel (mapping1.set pgoff (mark_written page1))
              (s64 (loff + (length : Int))) (nleft - length) (u + length)

/-- `xx_write(fp, ubuf, size, loff)` on the page cache `mapping` of `fp`. -/
def xx_write (shift : Nat) (alloc : Nat → Option (Nat → Byte)) (cp : Nat → Nat → Nat)
    (mapping : AddressSpace) (ubuf : Nat → Byte) (size : Nat) (loff : Int) : Option IOResult :=
  xx_write_loop shift alloc cp ubuf size size mapping loff size 0

/-! ## `xx_vm_fault` -/

/-- Outcome of a map fault: the `VM_FAULT_*` code, the page handed to the
faulting mapping (`vmf->page`), and the page cache. -/
structure FaultResult where
  rc : Nat
  page : Option Page
  mapping : AddressSpace

/-- `xx_vm_fault(vma, vmf)` for `vmf->pgoff = pgoff`. -/
def xx_vm_fault (shift : Nat) (alloc : Nat → Option (Nat → Byte)) (mapping : AddressSpace)
    (pgoff : Nat) : FaultResult :=
  match find_or_create_page alloc mapping pgoff with
  | none => { rc := VM_FAULT_OOM, page := none, mapping := mapping }
  | some (page, mapping1) =>
    if !page.uptodate then
      let page1 : Page :=
        { page with
          data := fun i => if i < PAGE_CACHE_SIZE shift then 0 else page.data i,
          uptodate := true }
      { rc := VM_FAULT_MAJOR, page := some page1, mapping := mapping1.set pgoff page1 }
    else
      { rc := 0, page := some page, mapping := mapping1 }

/-- The byte that `xx_read`, called at position `p`, copies to the user for
position `a ≥ p`: the byte of the resident page; where no page is resident,
the byte of the memory at `ZERO_PAGE` at the displacement of `a` in its
sub-range, which starts at `p` or at the start of the page of `a`. -/
def readByte (shift : Nat) (zp : Nat → Nat → Byte) (m : AddressSpace) (p a : Nat) : Byte :=
  match m (a / 2 ^ shift) with
  | some pg => pg.data (a % 2 ^ shift)
  | none => zp (a / 2 ^ shift) (a - max p (a / 2 ^ shift * 2 ^ shift))

/-- The bytes the page at index `pgi` holds before a write copies into it: those
of the resident page, or those of the frame the allocator hands out. -/
def frame_data (alloc : Nat → Option (Nat → Byte)) (m : AddressSpace) (pgi : Nat) : Nat → Byte :=
  match m pgi with
  | some pg => pg.data
  | none =>
    match alloc pgi with
    | some frame => frame
    | none => fun _ => 0

/-- A store through a shared mapping: the CPU writes `bytes` at offset `off` of
the page the fault handler delivered for index `pgoff`, which is the
page-cache page itself. -/
def mmap_store (m : AddressSpace) (pgoff off : Nat) (bytes : List Byte) : AddressSpace :=
  match m pgoff with
  | some pg =>
    m.set pgoff { pg with data := copy_bytes pg.data off (fun i => bytes.getD i 0) bytes.length }
  | none => m


/-! ## Units and the unit table -/

/-- Reduction of an integer to an `int` (32 bit), the value type of `atomic_t`. -/
def s32 (x : Int) : Int := (x + 2147483648) % 4294967296 - 2147483648

def MINORBITS : Nat := 20
def MAJOR (dev : Nat) : Nat := dev >>> MINORBITS
def MINOR (dev : Nat) : Nat := dev &&& (2 ^ MINORBITS - 1)
def MKDEV (ma mi : Nat) : Nat := (ma <<< MINORBITS) ||| mi

/-- Which `file_operations` table a unit carries. -/
inductive Fops where
  | xx_fops_ctl
  | xx_fops_rw
  deriving DecidableEq, Repr

structure xx_utype where
  ut_uid : Nat
  ut_gid : Nat
  ut_mode : Nat
  ut_fops : Fops
  deriving DecidableEq, Repr

def xx_utype_ctl : xx_utype :=
  { ut_uid := 0, ut_gid := 0, ut_mode := 0o644, ut_fops := Fops.xx_fops_ctl }

def xx_utype_rw : xx_utype :=
  { ut_uid := 0, ut_gid := 6, ut_mode := 0o660, ut_fops := Fops.xx_fops_rw }

/-- A unit object.  `un_mapping` records whether the pointer to the inode's
page cache has been set (it is `NULL` until the first open). -/
structure xx_unit where
  un_devno : Nat
  un_uid : Nat
  un_gid : Nat
  un_mode : Nat
  un_mapping : Bool
  un_refcnt : Int
  un_name : String
  un_fops : Fops
  deriving DecidableEq, Repr

/-- An entry of `inst->i_unit[]`: `NULL`, the placeholder `(void *)-1`, or a
pointer to a unit object (the object is kept in the entry). -/
inductive Slot where
  | empty
  | busy
  | live (unit : xx_unit)
  deriving DecidableEq, Repr

/-- A `struct xx_unit *` as callers hold it: `NULL`, the placeholder
`(void *)-1`, or the object installed in entry `slot` of the table. -/
inductive UnitPtr where
  | null
  | sentinel
  | unit (slot : Nat)
  deriving DecidableEq, Repr

/-- Value of `inst->i_class`: `NULL` (never assigned), an `ERR_PTR`, or a class. -/
inductive ClassPtr where
  | null
  | err (e : Int)
  | valid
  deriving DecidableEq, Repr

/-- Calls the driver makes into the kernel's device model, with the outcome
for those that can fail. -/
inductive KCall where
  | alloc_chrdev_region (ok : Bool)
  | class_create (ok : Bool)
  | cdev_add (ok : Bool)
  | device_create (devno : Nat) (ok : Bool)
  | truncate_inode_pages (devno : Nat)
  | device_destroy (devno : Nat)
  | kfree_unit (devno : Nat)
  | cdev_del
  | class_destroy (valid : Bool)
  | unregister_chrdev_region
  | kfree_inst
  deriving DecidableEq, Repr

/-- The driver instance.  `cdev_ops` is `i_cdev.ops`; `klog` is the sequence of
device-model calls made so far, oldest first. -/
structure xx_inst where
  cdev_ops : Option Fops
  i_devno : Nat
  i_class : ClassPtr
  i_unit : Nat → Slot
  klog : List KCall

/-- Assignment `inst->i_unit[minor] = s`. -/
def xx_inst.setSlot (inst : xx_inst) (minor : Nat) (s : Slot) : xx_inst :=
  { inst with i_unit := fun i => if i = minor then s else inst.i_unit i }

/-- Record a device-model call. -/
def xx_inst.call (inst : xx_inst) (c : KCall) : xx_inst :=
  { inst with klog := inst.klog ++ [c] }

/-- The pointer value read from `inst->i_unit[i]`. -/
def xx_inst.ptr (inst : xx_inst) (i : Nat) : UnitPtr :=
  match inst.i_unit i with
  | Slot.empty => UnitPtr.null
  | Slot.busy => UnitPtr.sentinel
  | Slot.live _ => UnitPtr.unit i

/-- `xx_unit_create(utype, fmt, minor)`.  `fmt` is the name format applied to
the minor; `kzalloc_ok` and `device_create_ok` are the outcomes of the two
calls that can fail.  Returns the instance and the pointer returned. -/
def xx_unit_create (utype : xx_utype) (fmt : Nat → String) (minor : Nat)
    (kzalloc_ok device_create_ok : Bool) (inst : xx_inst) : xx_inst × UnitPtr :=
  match inst.i_unit minor with
  | Slot.empty =>
    let inst1 := inst.setSlot minor Slot.busy
    if kzalloc_ok then
      let unit : xx_unit :=
        { un_name := fmt minor,
          un_devno := MKDEV (MAJOR inst.i_devno) minor,
          un_refcnt := 1,
          un_uid := utype.ut_uid,
          un_gid := utype.ut_gid,
          un_mode := utype.ut_mode,
          un_fops := utype.ut_fops,
          un_mapping := false }
      let inst2 := inst1.call (KCall.device_create unit.un_devno device_create_ok)
      if device_create_ok then
        ((inst2.setSlot minor (Slot.live unit)), UnitPtr.unit minor)
      else
        (((inst2.call (KCall.kfree_unit unit.un_devno)).setSlot minor Slot.empty), UnitPtr.null)
    else
      (inst1.setSlot minor Slot.empty, UnitPtr.null)
  | _ => (inst, UnitPtr.null)

/-- `xx_unit_destroy(unit)`, for the unit object `unit`. -/
def xx_unit_destroy (inst : xx_inst) (unit : xx_unit) : xx_inst :=
  let i := MINOR unit.un_devno
  let inst1 := inst.setSlot i Slot.busy
  if unit.un_refcnt = 0 then
    let inst2 := if unit.un_mapping then inst1.call (KCall.truncate_inode_pages unit.un_devno)
                 else inst1
    let inst3 := (inst2.call (KCall.device_destroy unit.un_devno)).call
                   (KCall.kfree_unit unit.un_devno)
    inst3.setSlot i Slot.empty
  else
    inst1

/-- `xx_unit_get_by_minor(minor)`. -/
def xx_unit_get_by_minor (xx_units_max : Nat) (inst : xx_inst) (minor : Nat) :
    xx_inst × UnitPtr :=
  if minor < xx_units_max then
    match inst.i_unit minor with
    | Slot.empty => (inst, UnitPtr.null)
    | Slot.busy => (inst, UnitPtr.null)
    | Slot.live unit =>
      (inst.setSlot minor (Slot.live { unit with un_refcnt := s32 (unit.un_refcnt + 1) }),
        UnitPtr.unit minor)
  else
    (inst, UnitPtr.null)

/-- `xx_unit_get(unit)`.  A pointer that does not lead to a unit object is not
passed by any caller; the table is then left as it is. -/
def xx_unit_get (inst : xx_inst) (p : UnitPtr) : xx_inst :=
  match p with
  | UnitPtr.unit m =>
    match inst.i_unit m with
    | Slot.live unit =>
      inst.setSlot m (Slot.live { unit with un_refcnt := s32 (unit.un_refcnt + 1) })
    | _ => inst
  | _ => inst

/-- `xx_unit_put(unit)`: nothing for `NULL`; otherwise decrement and destroy at
zero.  A pointer that does not lead to a unit object leaves the table as it is. -/
def xx_unit_put (inst : xx_inst) (p : UnitPtr) : xx_inst :=
  match p with
  | UnitPtr.null => inst
  | UnitPtr.sentinel => inst
  | UnitPtr.unit m =>
    match inst.i_unit m with
    | Slot.live unit =>
      let unit1 : xx_unit := { unit with un_refcnt := s32 (unit.un_refcnt - 1) }
      let inst1 := inst.setSlot m (Slot.live unit1)
      if unit1.un_refcnt = 0 then xx_unit_destroy inst1 unit1 else inst1
    | _ => inst

/-! ## Module start-up and tear-down -/

/-- Outcomes of the kernel calls made by `xx_init`.  `region_rc` is the return
value of `alloc_chrdev_region` and `region_devno` the device number it stores
on success; `class_err` is `none` when `class_create` returns a class and
`some e` when it returns `ERR_PTR(e)`; `cdev_add_rc` is the return value of
`cdev_add`; the last two give, per minor, the outcome of the unit's `kzalloc`
and `device_create`. -/
structure InitEnv where
  kzalloc_inst : Bool
  region_rc : Int
  region_devno : Nat
  class_err : Option Int
  cdev_add_rc : Int
  kzalloc_unit : Nat → Bool
  device_create_ok : Nat → Bool

/-- `xx_exit_impl()` for the global `inst` (`none` is `NULL`). -/
def xx_exit_impl (xx_units_max : Nat) (inst : Option xx_inst) : Option xx_inst :=
  match inst with
  | none => none
  | some inst =>
    let inst1 :=
      if inst.i_devno ≠ 0 then
        let inst2 :=
          if inst.i_class ≠ ClassPtr.null then
            let inst3 :=
              if inst.cdev_ops.isSome then
                let inst4 := (List.range xx_units_max).foldl
                  (fun st i => xx_unit_put st (st.ptr i)) inst
                inst4.call KCall.cdev_del
              else inst
            inst3.call (KCall.class_destroy (decide (inst.i_class = ClassPtr.valid)))
          else inst
        inst2.call KCall.unregister_chrdev_region
      else inst
    some (inst1.call KCall.kfree_inst)

/-- The code at the `error:` label of `xx_init`, reached on every path. -/
def xx_init_error (xx_units_max : Nat) (rc : Int) (inst : xx_inst) : Int × Option xx_inst :=
  if rc ≠ 0 then (rc, xx_exit_impl xx_units_max (some inst)) else (rc, some inst)

/-- `xx_init()`: the value returned and the global `inst` afterwards. -/
def xx_init (xx_units_max : Nat) (env : InitEnv) : Int × Option xx_inst :=
  if !env.kzalloc_inst then (-ENOMEM, none)
  else
    -- kzalloc zeroes the instance; cdev_init sets i_cdev.ops
    let inst0 : xx_inst :=
      { cdev_ops := some Fops.xx_fops_ctl, i_devno := 0, i_class := ClassPtr.null,
        i_unit := fun _ => Slot.empty, klog := [] }
    let rc := env.region_rc
    let inst1 := inst0.call (KCall.alloc_chrdev_region (decide (rc = 0)))
    if rc ≠ 0 then xx_init_error xx_units_max rc inst1
    else
      let inst2 := { inst1 with i_devno := env.region_devno }
      match env.class_err with
      | some e =>
        let inst3 := { (inst2.call (KCall.class_create false)) with i_class := ClassPtr.err e }
        xx_init_error xx_units_max e inst3
      | none =>
        let inst3 := { (inst2.call (KCall.class_create true)) with i_class := ClassPtr.valid }
        let rc := env.cdev_add_rc
        let inst4 := inst3.call (KCall.cdev_add (decide (rc = 0)))
        if rc ≠ 0 then xx_init_error xx_units_max rc inst4
        else
          let (inst5, unit) := xx_unit_create xx_utype_ctl (fun _ => "xxctl") 0
            (env.kzalloc_unit 0) (env.device_create_ok 0) inst4
          if unit = UnitPtr.null then xx_init_error xx_units_max rc inst5
          else
            let inst6 := (List.range' 1 (xx_units_max - 1)).foldl
              (fun st i => (xx_unit_create xx_utype_rw (fun n => "xx" ++ toString n) i
                (env.kzalloc_unit i) (env.device_create_ok i) st).1) inst5
            xx_init_error xx_units_max rc inst6

/-! ## Sequences of reference operations on one unit -/

/-- An operation on the reference count of the unit at one minor: an acquire by
lookup (`xx_unit_get_by_minor`), an acquire through a pointer already held
(`xx_unit_get`), or a release (`xx_unit_put`). -/
inductive RefOp where
  | lookup
  | get
  | put
  deriving DecidableEq, Repr

/-- Apply one reference operation to the unit at minor `m`. -/
def refStep (xx_units_max m : Nat) (inst : xx_inst) : RefOp → xx_inst
  | RefOp.lookup => (xx_unit_get_by_minor xx_units_max inst m).1
  | RefOp.get => xx_unit_get inst (UnitPtr.unit m)
  | RefOp.put => xx_unit_put inst (UnitPtr.unit m)

/-- Number of references held after an operation, given `h` held before: a
lookup yields a reference only while one is held (the unit exists). -/
def heldStep (h : Nat) : RefOp → Nat
  | RefOp.lookup => if h = 0 then 0 else h + 1
  | RefOp.get => h + 1
  | RefOp.put => h - 1

/-- Number of references held after a sequence of operations. -/
def heldAfter (h : Nat) (ops : List RefOp) : Nat := ops.foldl heldStep h

/-- Every `get` and every `put` of the sequence is made by the holder of a
reference: at least one reference is held when it is made. -/
def wellHeld (h : Nat) : List RefOp → Bool
  | [] => true
  | RefOp.lookup :: ops => wellHeld (heldStep h RefOp.lookup) ops
  | op :: ops => decide (0 < h) && wellHeld (heldStep h op) ops

/-- The state of the unit at minor `m` with device number `devno` when `h`
references are held, `c` being the number of destructions logged before the
unit was created: alive with count `h`, or destroyed once and its entry empty. -/
def RefInv (m devno c k : Nat) (s : xx_inst) (h : Nat) : Prop :=
  (0 < h → ∃ u, s.i_unit m = Slot.live u ∧ u.un_refcnt = (h : Int) ∧ u.un_devno = devno ∧
      s.klog.count (KCall.device_destroy devno) = c ∧
      s.klog.count (KCall.kfree_unit devno) = k) ∧
  (h = 0 → s.i_unit m = Slot.empty ∧
      s.klog.count (KCall.device_destroy devno) = c + 1 ∧
      s.klog.count (KCall.kfree_unit devno) = k + 1)

/-- An instance as `xx_init` leaves it before any unit is created: region 240
acquired, class registered, no unit. -/
def inst_sample : xx_inst :=
  { cdev_ops := some Fops.xx_fops_ctl, i_devno := MKDEV 240 0, i_class := ClassPtr.valid,
    i_unit := fun _ => Slot.empty, klog := [] }

/-- A start-up environment in which every kernel call succeeds. -/
def env_ok : InitEnv :=
  { kzalloc_inst := true, region_rc := 0, region_devno := MKDEV 240 0
    class_err := none, cdev_add_rc := 0
    kzalloc_unit := fun _ => true, device_create_ok := fun _ => true }


/-! ## Open files, seeking, commands and mappings -/

def SEEK_SET : Int := 0
def SEEK_CUR : Int := 1
def SEEK_END : Int := 2

/-- `LONG_MAX` of a 64-bit kernel, which is also the largest `loff_t`. -/
def LONG_MAX : Int := 9223372036854775807

def VM_IO : Nat := 0x00004000
def VM_NORESERVE : Nat := 0x00200000
def VM_DONTDUMP : Nat := 0x04000000

/-- The driver's entry points that a `file_operations` table can name. -/
inductive Handler where
  | xx_open
  | xx_release
  | xx_llseek
  | xx_ioctl
  | xx_read
  | xx_write
  | xx_mmap
  deriving DecidableEq, Repr

/-- A `struct file_operations`: per operation the handler installed, `none`
where the table leaves the member out. -/
structure file_operations where
  f_open : Option Handler
  f_release : Option Handler
  f_llseek : Option Handler
  f_unlocked_ioctl : Option Handler
  f_read : Option Handler
  f_write : Option Handler
  f_mmap : Option Handler
  deriving DecidableEq, Repr

/-- The table `xx_fops_ctl`. -/
def xx_fops_ctl : file_operations :=
  { f_open := some Handler.xx_open, f_release := some Handler.xx_release,
    f_llseek := none, f_unlocked_ioctl := some Handler.xx_ioctl,
    f_read := none, f_write := none, f_mmap := none }

/-- The table `xx_fops_rw`. -/
def xx_fops_rw : file_operations :=
  { f_open := some Handler.xx_open, f_release := some Handler.xx_release,
    f_llseek := some Handler.xx_llseek, f_unlocked_ioctl := some Handler.xx_ioctl,
    f_read := some Handler.xx_read, f_write := some Handler.xx_write,
    f_mmap := some Handler.xx_mmap }

/-- The table a unit's `un_fops` points to. -/
def Fops.table : Fops → file_operations
  | Fops.xx_fops_ctl => XX.xx_fops_ctl
  | Fops.xx_fops_rw => XX.xx_fops_rw

/-- The parts of a `struct file` the driver uses: the minor of its inode,
`private_data`, `f_op` once the driver has set it, the position `f_pos`, and
whether `nonseekable_open` was applied. -/
structure File where
  f_minor : Nat
  private_data : UnitPtr
  f_op : Option Fops
  f_pos : Int
  nonseekable : Bool
  deriving DecidableEq, Repr

/-- The parts of a `struct vm_area_struct` the driver uses. -/
structure Vma where
  vm_ops : Bool
  vm_flags : Nat
  vm_private_data : UnitPtr
  deriving DecidableEq, Repr

/-- `xx_open(ip, fp)`: the value returned, the instance and the file. -/
def xx_open (xx_units_max : Nat) (inst : xx_inst) (fp : File) : Int × xx_inst × File :=
  match xx_unit_get_by_minor xx_units_max inst fp.f_minor with
  | (inst1, UnitPtr.unit m) =>
    if fp.private_data = UnitPtr.null then
      match inst1.i_unit m with
      | Slot.live unit =>
        (0, inst1.setSlot m (Slot.live { unit with un_mapping := true }),
          { fp with
            nonseekable := if unit.un_fops = Fops.xx_fops_ctl then true else fp.nonseekable,
            f_op := some unit.un_fops,
            private_data := UnitPtr.unit m })
      | _ => (0, inst1, fp)
    else (0, inst1, fp)
  | (inst1, _) => (-ENODEV, inst1, fp)

/-- `xx_release(ip, fp)`: returns 0 after `xx_unit_put(fp->private_data)`. -/
def xx_release (inst : xx_inst) (fp : File) : Int × xx_inst :=
  (0, xx_unit_put inst fp.private_data)

/-- `xx_llseek(fp, loff, whence)`: the value returned and the file. -/
def xx_llseek (fp : File) (loff : Int) (whence : Int) : Int × File :=
  let loff1 : Int :=
    if whence = SEEK_SET then loff
    else if whence = SEEK_CUR then s64 (loff + fp.f_pos)
    else if whence = SEEK_END then LONG_MAX
    else -EINVAL
  (loff1, if 0 ≤ loff1 then { fp with f_pos := loff1 } else fp)

/-- `xx_ioctl(fp, cmd, arg)`: the value returned; instance and file are passed
through to show that they are not touched. -/
def xx_ioctl (inst : xx_inst) (fp : File) (_cmd _arg : Nat) : Int × xx_inst × File :=
  (-ENOTTY, inst, fp)

/-- The `ioctl` system call on a file whose operations are `ops`: the handler
the table names, and the kernel's `-ENOTTY` where it names none. -/
def vfs_ioctl (ops : file_operations) (inst : xx_inst) (fp : File) (cmd arg : Nat) :
    Int × xx_inst × File :=
  match ops.f_unlocked_ioctl with
  | some Handler.xx_ioctl => xx_ioctl inst fp cmd arg
  | _ => (-ENOTTY, inst, fp)

/-- `xx_vm_open(vma)`. -/
def xx_vm_open (inst : xx_inst) (vma : Vma) : xx_inst :=
  xx_unit_get inst vma.vm_private_data

/-- `xx_vm_close(vma)`. -/
def xx_vm_close (inst : xx_inst) (vma : Vma) : xx_inst :=
  xx_unit_put inst vma.vm_private_data

/-- `xx_mmap(fp, vma)`: the value returned, the instance and the area. -/
def xx_mmap (inst : xx_inst) (fp : File) (vma : Vma) : Int × xx_inst × Vma :=
  let vma1 : Vma :=
    { vm_ops := true,
      vm_flags := vma.vm_flags ||| ( VM_IO ||| VM_DONTDUMP ||| VM_NORESERVE),
      vm_private_data := fp.private_data }
  (0, xx_vm_open inst vma1, vma1)

/-- One iteration of the loop of `xx_read` or `xx_write`: the position and the
bytes left when it starts, and the `pgoff`, `offset` and `length` it computes. -/
structure SubRange where
  loff : Int
  nleft : Nat
  pgoff : Nat
  offset : Nat
  length : Nat
  deriving DecidableEq, Repr

/-- The iterations the loops of `xx_read` and `xx_write` make while no copy and
no allocation fails: the loop header and the three advancing assignments that
both loops share. -/
def xx_subranges (shift : Nat) : Nat → Int → Nat → List SubRange
  | fuel, loff, nleft =>
    if nleft = 0 then []
    else
      match fuel with
      | 0 => []
      | fuel + 1 =>
        let pgoff := xx_pgoff shift loff
        let offset := xx_offset shift loff
        let length := xx_length shift loff nleft
        { loff := loff, nleft := nleft, pgoff := pgoff, offset := offset, length := length } ::
          xx_subranges shift fuel (s64 (loff + (length : Int))) (nleft - length)

/-- The sub-ranges follow one another from position `a` and end at position `b`. -/
def consecutive : List SubRange → Int → Int → Prop
  | [], a, b => a = b
  | e :: l, a, b => e.loff = a ∧ consecutive l (a + (e.length : Int)) b

/-- The body of the read loop for one sub-range when the copy succeeds: the user
buffer and the displacement of `ubuf` afterwards. -/
def read_subrange (zp : Nat → Nat → Byte) (mapping : AddressSpace) (st : (Nat → Byte) × Nat)
    (e : SubRange) : (Nat → Byte) × Nat :=
  let src : Nat → Byte :=
    match find_lock_page mapping e.pgoff with
    | some page => fun i => page.data (e.offset + i)
    | none => fun i => zp e.pgoff i
  (copy_bytes st.1 st.2 src e.length, st.2 + e.length)

/-- The body of the write loop for one sub-range when allocation and copy
succeed: the page cache and the displacement of `ubuf` afterwards. -/
def write_subrange (alloc : Nat → Option (Nat → Byte)) (ubuf : Nat → Byte)
    (st : AddressSpace × Nat) (e : SubRange) : AddressSpace × Nat :=
  match find_or_create_page alloc st.1 e.pgoff with
  | none => st
  | some (page, mapping1) =>
    (mapping1.set e.pgoff (mark_written
        { page with
          data := copy_from_user page.data e.offset (fun i => ubuf (st.2 + i)) e.length 0 }),
      st.2 + e.length)

/-- The position a seek asks for, computed in `loff_t` arithmetic: the target for
`SEEK_SET`, target plus current position for `SEEK_CUR`, the largest offset for
`SEEK_END`; `none` for a directive that is none of the three. -/
def seek_target (f_pos t whence : Int) : Option Int :=
  if whence = SEEK_SET then some t
  else if whence = SEEK_CUR then some (s64 (t + f_pos))
  else if whence = SEEK_END then some LONG_MAX
  else none

/-- A file freshly opened on minor `m`, before the driver's `open` has run. -/
def file_sample (m : Nat) : File :=
  { f_minor := m, private_data := UnitPtr.null, f_op := none, f_pos := 0, nonseekable := false }

/-- The instance `inst_sample` after a data unit was created at minor 1. -/
def inst_unit1 : xx_inst :=
  (xx_unit_create xx_utype_rw (fun _ => "xx1") 1 true true inst_sample).1

/-- A mapping area before the driver's `mmap` has run. -/
def vma_sample : Vma := { vm_ops := false, vm_flags := 0, vm_private_data := UnitPtr.null }

/-- Kernel memory at the `ZERO_PAGE` pointer that is not zero: the byte 4 at
every address (page descriptors hold flags and counts). -/
def zp_sample : Nat → Nat → Byte := fun _ _ => 4

/-- The page store holding one up-to-date page of 1s at index 3. -/
def mapping_sample : AddressSpace :=
  fun i => if i = 3 then some
    { data := fun _ => 1, uptodate := true, dirty := true, reserved := false } else none


/-! ## Arithmetic of the embedding -/

theorem u64_natCast (n : Nat) (h : n < 2 ^ 64) : u64 (n : Int) = n := by
  unfold u64
  have h1 : ((n : Int) % 18446744073709551616) = (n : Int) := by
    apply Int.emod_eq_of_lt <;> omega
  rw [h1]; simp

theorem s64_natCast (n : Nat) (h : n < 2 ^ 63) : s64 (n : Int) = n := by
  unfold s64
  omega

theorem PAGE_CACHE_SIZE_eq (shift : Nat) (h : shift < 64) : PAGE_CACHE_SIZE shift = 2 ^ shift := by
  unfold PAGE_CACHE_SIZE
  rw [Nat.shiftLeft_eq, Nat.one_mul]
  apply u64_natCast
  exact Nat.pow_lt_pow_right (by decide) h

theorem xx_pgoff_natCast (shift p : Nat) (hp : p < 2 ^ 63) :
    xx_pgoff shift (p : Int) = p / 2 ^ shift := by
  unfold xx_pgoff
  rw [Int.shiftRight_eq_div_pow]
  have : ((p : Int) / ((2 ^ shift : Nat) : Int)) = ((p / 2 ^ shift : Nat) : Int) := by
    simp
  rw [this]
  apply u64_natCast
  have := Nat.div_le_self p (2 ^ shift)
  omega

theorem xx_offset_natCast (shift p : Nat) (hp : p < 2 ^ 63) :
    xx_offset shift (p : Int) = p % 2 ^ shift := by
  unfold xx_offset
  rw [xx_pgoff_natCast shift p hp, Nat.shiftLeft_eq]
  have h1 : p / 2 ^ shift * 2 ^ shift ≤ p := Nat.div_mul_le_self p (2 ^ shift)
  rw [u64_natCast _ (by omega)]
  have h2 : p % 2 ^ shift = p - p / 2 ^ shift * 2 ^ shift := by
    have := Nat.div_add_mod p (2 ^ shift)
    rw [Nat.mul_comm] at this
    omega
  have h3 : ((p : Int) - ((p / 2 ^ shift * 2 ^ shift : Nat) : Int))
      = ((p % 2 ^ shift : Nat) : Int) := by
    rw [h2]; omega
  rw [h3]
  apply u64_natCast
  have := Nat.mod_le p (2 ^ shift)
  omega

theorem xx_length_natCast (shift p nleft : Nat) (hs : shift < 64) (hp : p < 2 ^ 63) :
    xx_length shift (p : Int) nleft = min (2 ^ shift - p % 2 ^ shift) nleft := by
  unfold xx_length
  rw [xx_offset_natCast shift p hp, PAGE_CACHE_SIZE_eq shift hs]
  have hpos : 0 < 2 ^ shift := Nat.two_pow_pos shift
  have hlt : p % 2 ^ shift < 2 ^ shift := Nat.mod_lt _ hpos
  have hP : 2 ^ shift < 2 ^ 64 := Nat.pow_lt_pow_right (by decide) hs
  have h3 : (((2 ^ shift : Nat) : Int) - ((p % 2 ^ shift : Nat) : Int))
      = ((2 ^ shift - p % 2 ^ shift : Nat) : Int) := by
    omega
  rw [h3, u64_natCast _ (by omega)]

/-- Position `q * P + (o + j)` with `o + j < P` lies in page `q` at offset `o + j`. -/
theorem div_mod_in_page (P q r : Nat) (h : r < P) :
    (q * P + r) / P = q ∧ (q * P + r) % P = r := by
  have hP : 0 < P := by omega
  constructor
  · rw [Nat.mul_comm, Nat.mul_add_div hP, Nat.div_eq_of_lt h]; rfl
  · rw [Nat.mul_comm, Nat.mul_add_mod, Nat.mod_eq_of_lt h]

/-- Positions `p + j` that stay below the end of the page of `p` are in that page. -/
theorem same_page (P p j : Nat) (hP : 0 < P) (h : j < P - p % P) :
    (p + j) / P = p / P ∧ (p + j) % P = p % P + j := by
  have hdm := Nat.div_add_mod p P
  have hlt := Nat.mod_lt p hP
  have key := div_mod_in_page P (p / P) (p % P + j) (by omega)
  have e : p + j = p / P * P + (p % P + j) := by
    rw [Nat.mul_comm]; omega
  rw [e]; exact key


/-! ## The read loop -/

theorem xx_read_loop_done (shift : Nat) (zp : Nat → Nat → Byte) (cp : Nat → Nat → Nat)
    (size fuel : Nat)
    (mapping : AddressSpace) (ubuf : Nat → Byte) (loff : Int) (u : Nat) :
    xx_read_loop shift zp cp size fuel mapping ubuf loff 0 u
      = some { ret := s64 ((size : Nat) : Int), loff := loff, mapping := mapping, ubuf := ubuf } := by
  unfold xx_read_loop
  simp

/-- One iteration of the read loop at a non-negative position, with the
sub-range geometry in closed form. -/
theorem xx_read_loop_step (shift : Nat) (hs : shift < 64) (zp : Nat → Nat → Byte)
    (cp : Nat → Nat → Nat) (size fuel : Nat)
    (mapping : AddressSpace) (ubuf : Nat → Byte) (p nleft u : Nat)
    (hn : nleft ≠ 0) (hp : p + nleft < 2 ^ 63) :
    xx_read_loop shift zp cp size (fuel + 1) mapping ubuf (p : Int) nleft u =
      (let length := min (2 ^ shift - p % 2 ^ shift) nleft
       let src : Nat → Byte :=
         match mapping (p / 2 ^ shift) with
         | some page => fun i => page.data (p % 2 ^ shift + i)
         | none => fun i => zp (p / 2 ^ shift) i
       let resid := min (cp u length) length
       let ubuf1 := copy_bytes ubuf u src (length - resid)
       if 0 < resid then
         some { ret := if nleft - (length - resid) < size
                       then s64 ((size - (nleft - (length - resid)) : Nat) : Int) else -EFAULT,
                loff := ((p + (length - resid) : Nat) : Int), mapping := mapping, ubuf := ubuf1 }
       else
         xx_read_loop shift zp cp size fuel mapping ubuf1 ((p + length : Nat) : Int)
           (nleft - length) (u + length)) := by
  have hp1 : p < 2 ^ 63 := by omega
  rw [xx_read_loop]
  simp only [hn, if_false, find_lock_page]
  rw [xx_pgoff_natCast shift p hp1, xx_offset_natCast shift p hp1,
    xx_length_natCast shift p nleft hs hp1]
  have e1 : ∀ d : Nat, d ≤ nleft → s64 ((p : Int) + (d : Int)) = ((p + d : Nat) : Int) := by
    intro d hd
    rw [← Int.natCast_add]
    exact s64_natCast _ (by omega)
  rw [e1 _ (Nat.min_le_right _ _)]
  rw [e1 (min (2 ^ shift - p % 2 ^ shift) nleft
      - min (cp u (min (2 ^ shift - p % 2 ^ shift) nleft)) (min (2 ^ shift - p % 2 ^ shift) nleft))
      (le_trans (Nat.sub_le _ _) (Nat.min_le_right _ _))]

/-- The bytes the copy of the sub-range starting at `p` reads are the bytes
`readByte` names for `p, p+1, ...`. -/
theorem read_src_eq (shift : Nat) (zp : Nat → Nat → Byte) (mapping : AddressSpace) (p i : Nat)
    (hi : i < 2 ^ shift - p % 2 ^ shift) :
    (match mapping (p / 2 ^ shift) with
      | some page => fun i => page.data (p % 2 ^ shift + i)
      | none => fun i => zp (p / 2 ^ shift) i) i = readByte shift zp mapping p (p + i) := by
  unfold readByte
  obtain ⟨h1, h2⟩ := same_page (2 ^ shift) p i (Nat.two_pow_pos shift) hi
  rw [h1, h2]
  have hle : p / 2 ^ shift * 2 ^ shift ≤ p := Nat.div_mul_le_self p (2 ^ shift)
  have e : p + i - max p (p / 2 ^ shift * 2 ^ shift) = i := by omega
  rw [e]
  cases mapping (p / 2 ^ shift) <;> rfl

/-- For positions from a page start `q` on, a read called at `q` and a read
called at an earlier position `p` copy the same bytes. -/
theorem readByte_aligned (shift : Nat) (zp : Nat → Nat → Byte) (m : AddressSpace)
    (p q a : Nat) (hpq : p ≤ q) (hal : q % 2 ^ shift = 0) (ha : q ≤ a) :
    readByte shift zp m q a = readByte shift zp m p a := by
  unfold readByte
  have h1 : q = q / 2 ^ shift * 2 ^ shift := by
    have := Nat.div_add_mod q (2 ^ shift)
    rw [Nat.mul_comm] at this
    omega
  have h2 : q / 2 ^ shift * 2 ^ shift ≤ a / 2 ^ shift * 2 ^ shift :=
    Nat.mul_le_mul_right _ (Nat.div_le_div_right ha)
  have e : max q (a / 2 ^ shift * 2 ^ shift) = max p (a / 2 ^ shift * 2 ^ shift) := by omega
  rw [e]

/-- What the read loop does from a non-negative position: it returns, having
copied the bytes `readByte` names for the first `k ≤ nleft` positions into the
user buffer and advanced the position by `k`; the page cache is untouched. -/
theorem xx_read_loop_spec (shift : Nat) (hs : shift < 64) (zp : Nat → Nat → Byte)
    (cp : Nat → Nat → Nat) (size : Nat) (hsz : size < 2 ^ 63) :
    ∀ (fuel : Nat) (mapping : AddressSpace) (ubuf : Nat → Byte) (p nleft u : Nat),
      nleft ≤ fuel → p + nleft < 2 ^ 63 → nleft ≤ size →
      ∃ (r : IOResult) (k : Nat),
        xx_read_loop shift zp cp size fuel mapping ubuf (p : Int) nleft u = some r ∧
        k ≤ nleft ∧ r.loff = ((p + k : Nat) : Int) ∧ r.mapping = mapping ∧
        (∀ j, r.ubuf j = if u ≤ j ∧ j < u + k then readByte shift zp mapping p (p + (j - u))
          else ubuf j) ∧
        ((k = nleft ∧ r.ret = (size : Int)) ∨
          (k < nleft ∧ r.ret = if nleft - k < size then ((size - (nleft - k) : Nat) : Int)
                               else -EFAULT)) ∧
        ((∀ a b, cp a b = 0) → k = nleft) := by
  intro fuel
  induction fuel with
  | zero =>
    intro mapping ubuf p nleft u hf _ _
    have h0 : nleft = 0 := by omega
    subst h0
    refine ⟨_, 0, xx_read_loop_done _ _ _ _ _ _ _ _ _, le_refl _, by simp, rfl, ?_, ?_, fun _ => rfl⟩
    · intro j; rw [if_neg (by omega)]
    · left; exact ⟨rfl, s64_natCast _ hsz⟩
  | succ fuel ih =>
    intro mapping ubuf p nleft u hf hp hle
    by_cases h0 : nleft = 0
    · subst h0
      refine ⟨_, 0, xx_read_loop_done _ _ _ _ _ _ _ _ _, le_refl _, by simp, rfl, ?_, ?_, fun _ => rfl⟩
      · intro j; rw [if_neg (by omega)]
      · left; exact ⟨rfl, s64_natCast _ hsz⟩
    · rw [xx_read_loop_step shift hs zp cp size fuel mapping ubuf p nleft u h0 hp]
      have hP : 0 < 2 ^ shift := Nat.two_pow_pos shift
      have hlt : p % 2 ^ shift < 2 ^ shift := Nat.mod_lt _ hP
      have hdm : p = p / 2 ^ shift * 2 ^ shift + p % 2 ^ shift := by
        have := Nat.div_add_mod p (2 ^ shift)
        rw [Nat.mul_comm] at this
        omega
      generalize hL : min (2 ^ shift - p % 2 ^ shift) nleft = L
      have hL1 : 1 ≤ L := by omega
      have hL2 : L ≤ nleft := by omega
      have hL3 : L ≤ 2 ^ shift - p % 2 ^ shift := by omega
      simp only []
      generalize hR : min (cp u L) L = resid
      have hR1 : resid ≤ L := by omega
      by_cases hr : 0 < resid
      · rw [if_pos hr]
        refine ⟨_, L - resid, rfl, by omega, rfl, rfl, ?_, ?_, ?_⟩
        · intro j
          simp only [copy_bytes]
          by_cases hj : u ≤ j ∧ j < u + (L - resid)
          · rw [if_pos hj, if_pos hj]
            exact read_src_eq shift zp mapping p (j - u) (by omega)
          · rw [if_neg hj, if_neg hj]
        · right
          refine ⟨by omega, ?_⟩
          by_cases hc : nleft - (L - resid) < size
          · rw [if_pos hc, if_pos hc]; exact s64_natCast _ (by omega)
          · rw [if_neg hc, if_neg hc]
        · intro hcp
          rw [hcp] at hR
          omega
      · rw [if_neg hr]
        have hr0 : resid = 0 := by omega
        subst hr0
        obtain ⟨r, k, hrun, hk, hloff, hmap, hbuf, hret, hfull⟩ :=
          ih mapping (copy_bytes ubuf u
            (match mapping (p / 2 ^ shift) with
              | some page => fun i => page.data (p % 2 ^ shift + i)
              | none => fun i => zp (p / 2 ^ shift) i) (L - 0)) (p + L) (nleft - L) (u + L)
            (by omega) (by omega) (by omega)
        refine ⟨r, L + k, hrun, by omega, ?_, hmap, ?_, ?_, ?_⟩
        · rw [hloff]; congr 1; omega
        · intro j
          rw [hbuf j]
          simp only [copy_bytes]
          by_cases hj1 : u + L ≤ j ∧ j < u + L + k
          · rw [if_pos hj1, if_pos (by omega)]
            clear hret
            have hal : (p + L) % 2 ^ shift = 0 := by
              have e : p + L = (p / 2 ^ shift + 1) * 2 ^ shift := by
                rw [Nat.add_mul, Nat.one_mul]; omega
              rw [e, Nat.mul_mod_left]
            have e2 : p + L + (j - (u + L)) = p + (j - u) := by omega
            rw [e2]
            exact readByte_aligned shift zp mapping p (p + L) (p + (j - u)) (by omega) hal
              (by omega)
          · rw [if_neg hj1]
            by_cases hj2 : u ≤ j ∧ j < u + (L - 0)
            · rw [if_pos hj2, if_pos (by omega)]
              exact read_src_eq shift zp mapping p (j - u) (by omega)
            · rw [if_neg hj2, if_neg (by omega)]
        · rcases hret with ⟨hk1, hr1⟩ | ⟨hk1, hr1⟩
          · left; exact ⟨by omega, hr1⟩
          · right
            refine ⟨by omega, ?_⟩
            rw [hr1]
            have e : nleft - L - k = nleft - (L + k) := by omega
            rw [e]
        · intro hcp
          have := hfull hcp
          omega


/-! ## The write loop -/

theorem xx_write_loop_done (shift : Nat) (alloc : Nat → Option (Nat → Byte))
    (cp : Nat → Nat → Nat) (ubuf : Nat → Byte) (size fuel : Nat)
    (mapping : AddressSpace) (loff : Int) (u : Nat) :
    xx_write_loop shift alloc cp ubuf size fuel mapping loff 0 u
      = some { ret := s64 ((size : Nat) : Int), loff := loff, mapping := mapping, ubuf := ubuf } := by
  unfold xx_write_loop
  simp

/-- One iteration of the write loop at a non-negative position, with the
sub-range geometry in closed form. -/
theorem xx_write_loop_step (shift : Nat) (hs : shift < 64) (alloc : Nat → Option (Nat → Byte))
    (cp : Nat → Nat → Nat) (ubuf : Nat → Byte) (size fuel : Nat)
    (mapping : AddressSpace) (p nleft u : Nat)
    (hn : nleft ≠ 0) (hp : p + nleft < 2 ^ 63) :
    xx_write_loop shift alloc cp ubuf size (fuel + 1) mapping (p : Int) nleft u =
      (let length := min (2 ^ shift - p % 2 ^ shift) nleft
       match find_or_create_page alloc mapping (p / 2 ^ shift) with
       | none =>
         some { ret := if nleft < size then s64 ((size - nleft : Nat) : Int) else -ENOMEM,
                loff := (p : Int), mapping := mapping, ubuf := ubuf }
       | some (page, mapping1) =>
         let resid := min (cp u length) length
         let page1 : Page :=
           { page with
             data := copy_from_user page.data (p % 2 ^ shift) (fun i => ubuf (u + i)) length resid }
         if 0 < resid then
           some { ret := if nleft - (length - resid) < size
                         then s64 ((size - (nleft - (length - resid)) : Nat) : Int) else -EFAULT,
                  loff := ((p + (length - resid) : Nat) : Int),
                  mapping := mapping1.set (p / 2 ^ shift) page1, ubuf := ubuf }
         else
           xx_write_loop shift alloc cp ubuf size fuel
             (mapping1.set (p / 2 ^ shift) (mark_written page1)) ((p + length : Nat) : Int)
             (nleft - length) (u + length)) := by
  have hp1 : p < 2 ^ 63 := by omega
  rw [xx_write_loop]
  simp only [hn, if_false]
  rw [xx_pgoff_natCast shift p hp1, xx_offset_natCast shift p hp1,
    xx_length_natCast shift p nleft hs hp1]
  have e1 : ∀ d : Nat, d ≤ nleft → s64 ((p : Int) + (d : Int)) = ((p + d : Nat) : Int) := by
    intro d hd
    rw [← Int.natCast_add]
    exact s64_natCast _ (by omega)
  rw [e1 _ (Nat.min_le_right _ _)]
  rw [e1 (min (2 ^ shift - p % 2 ^ shift) nleft
      - min (cp u (min (2 ^ shift - p % 2 ^ shift) nleft)) (min (2 ^ shift - p % 2 ^ shift) nleft))
      (le_trans (Nat.sub_le _ _) (Nat.min_le_right _ _))]

/-- `find_or_create_page` changes the page cache at most at the index asked for,
where it then holds the page returned. -/
theorem find_or_create_page_some (alloc : Nat → Option (Nat → Byte)) (m m1 : AddressSpace)
    (pgoff : Nat) (pg : Page) (h : find_or_create_page alloc m pgoff = some (pg, m1)) :
    m1 pgoff = some pg ∧ ∀ i, i ≠ pgoff → m1 i = m i := by
  unfold find_or_create_page at h
  cases hm : m pgoff with
  | some pg0 =>
    rw [hm] at h
    simp only [Option.some.injEq, Prod.mk.injEq] at h
    obtain ⟨h1, h2⟩ := h
    subst h1; subst h2
    exact ⟨hm, fun _ _ => rfl⟩
  | none =>
    rw [hm] at h
    cases ha : alloc pgoff with
    | none => rw [ha] at h; simp at h
    | some frame =>
      rw [ha] at h
      simp only [Option.some.injEq, Prod.mk.injEq] at h
      obtain ⟨h1, h2⟩ := h
      subst h1; subst h2
      refine ⟨by simp [AddressSpace.set], fun i hi => by simp [AddressSpace.set, hi]⟩

theorem find_or_create_page_none (alloc : Nat → Option (Nat → Byte)) (m : AddressSpace)
    (pgoff : Nat) (h : find_or_create_page alloc m pgoff = none) : alloc pgoff = none := by
  unfold find_or_create_page at h
  cases hm : m pgoff with
  | some pg0 => rw [hm] at h; simp at h
  | none =>
    rw [hm] at h
    cases ha : alloc pgoff with
    | none => rfl
    | some frame => rw [ha] at h; simp at h

theorem frame_data_resident (alloc : Nat → Option (Nat → Byte)) (m : AddressSpace) (pgi : Nat)
    (pg : Page) (h : m pgi = some pg) (i : Nat) : pg.data i = frame_data alloc m pgi i := by
  simp only [frame_data, h]

/-- The page `find_or_create_page` returns holds the resident page's bytes, or
the allocated frame's. -/
theorem find_or_create_page_data (alloc : Nat → Option (Nat → Byte)) (m m1 : AddressSpace)
    (pgoff : Nat) (pg : Page) (h : find_or_create_page alloc m pgoff = some (pg, m1)) :
    pg.data = frame_data alloc m pgoff := by
  unfold find_or_create_page at h
  unfold frame_data
  cases hm : m pgoff with
  | some pg0 =>
    rw [hm] at h
    simp only [Option.some.injEq, Prod.mk.injEq] at h
    rw [← h.1]
  | none =>
    rw [hm] at h
    cases ha : alloc pgoff with
    | none => rw [ha] at h; simp at h
    | some frame =>
      rw [ha] at h
      simp only [Option.some.injEq, Prod.mk.injEq] at h
      rw [← h.1]

/-- What the write loop does from a non-negative position: it returns, having
stored the first `k ≤ nleft` bytes of the user buffer at `p, p+1, ...` and
advanced the position by `k`; pages that do not overlap the range, and pages
beyond the page of `p + k`, are left alone; a byte elsewhere keeps the value the
page or its frame had, unless it is zero padding, in the page of `p + k`, after
a copy that stopped short; when all `nleft` bytes went through, every page
written is up to date. -/
theorem xx_write_loop_spec (shift : Nat) (hs : shift < 64) (alloc : Nat → Option (Nat → Byte))
    (cp : Nat → Nat → Nat) (ubuf : Nat → Byte) (size : Nat) (hsz : size < 2 ^ 63) :
    ∀ (fuel : Nat) (mapping : AddressSpace) (p nleft u : Nat),
      nleft ≤ fuel → p + nleft < 2 ^ 63 → nleft ≤ size →
      ∃ (r : IOResult) (k : Nat),
        xx_write_loop shift alloc cp ubuf size fuel mapping (p : Int) nleft u = some r ∧
        k ≤ nleft ∧ r.loff = ((p + k : Nat) : Int) ∧ r.ubuf = ubuf ∧
        (∀ j, j < k → ∃ pg, r.mapping ((p + j) / 2 ^ shift) = some pg ∧
            pg.data ((p + j) % 2 ^ shift) = ubuf (u + j) ∧ (k = nleft → pg.uptodate = true)) ∧
        (∀ pgi, (nleft = 0 ∨ pgi * 2 ^ shift + 2 ^ shift ≤ p ∨ p + nleft ≤ pgi * 2 ^ shift ∨
              (p + k) / 2 ^ shift < pgi) →
            r.mapping pgi = mapping pgi) ∧
        (∀ pgi pg, r.mapping pgi = some pg → ∀ i,
            ¬ (i < 2 ^ shift ∧ p ≤ pgi * 2 ^ shift + i ∧ pgi * 2 ^ shift + i < p + k) →
            pg.data i = frame_data alloc mapping pgi i ∨
              (k < nleft ∧ pgi = (p + k) / 2 ^ shift ∧ pg.data i = 0 ∧ i < 2 ^ shift ∧
                p + k ≤ pgi * 2 ^ shift + i ∧ pgi * 2 ^ shift + i < p + nleft)) ∧
        ((k = nleft ∧ r.ret = (size : Int)) ∨
          (k < nleft ∧ ∃ e : Int, (e = ENOMEM ∨ e = EFAULT) ∧
            (r.ret = if nleft - k < size then ((size - (nleft - k) : Nat) : Int) else -e) ∧
            ((∀ a b, cp a b = 0) → e = ENOMEM) ∧ ((∀ i, alloc i ≠ none) → e = EFAULT))) := by
  intro fuel
  induction fuel with
  | zero =>
    intro mapping p nleft u hf _ _
    have h0 : nleft = 0 := by omega
    subst h0
    refine ⟨_, 0, xx_write_loop_done _ _ _ _ _ _ _ _ _, le_refl _, by simp, rfl, ?_,
      fun _ _ => rfl, ?_, ?_⟩
    · intro j hj; omega
    · intro pgi pg hpg i _
      exact Or.inl (frame_data_resident alloc mapping pgi pg hpg i)
    · left; exact ⟨rfl, s64_natCast _ hsz⟩
  | succ fuel ih =>
    intro mapping p nleft u hf hp hle
    by_cases h0 : nleft = 0
    · subst h0
      refine ⟨_, 0, xx_write_loop_done _ _ _ _ _ _ _ _ _, le_refl _, by simp, rfl, ?_,
        fun _ _ => rfl, ?_, ?_⟩
      · intro j hj; omega
      · intro pgi pg hpg i _
        exact Or.inl (frame_data_resident alloc mapping pgi pg hpg i)
      · left; exact ⟨rfl, s64_natCast _ hsz⟩
    · rw [xx_write_loop_step shift hs alloc cp ubuf size fuel mapping p nleft u h0 hp]
      have hP : 0 < 2 ^ shift := Nat.two_pow_pos shift
      have hlt : p % 2 ^ shift < 2 ^ shift := Nat.mod_lt _ hP
      have hdm : p = p / 2 ^ shift * 2 ^ shift + p % 2 ^ shift := by
        have := Nat.div_add_mod p (2 ^ shift)
        rw [Nat.mul_comm] at this
        omega
      generalize hL : min (2 ^ shift - p % 2 ^ shift) nleft = L
      have hL1 : 1 ≤ L := by omega
      have hL2 : L ≤ nleft := by omega
      have hL3 : L ≤ 2 ^ shift - p % 2 ^ shift := by omega
      simp only []
      cases hfc : find_or_create_page alloc mapping (p / 2 ^ shift) with
      | none =>
        simp only []
        refine ⟨_, 0, rfl, by omega, by simp, rfl, ?_, fun _ _ => rfl, ?_, ?_⟩
        · intro j hj; omega
        · intro pgi pg hpg i _
          exact Or.inl (frame_data_resident alloc mapping pgi pg hpg i)
        · right
          refine ⟨by omega, ENOMEM, Or.inl rfl, ?_, fun _ => rfl, ?_⟩
          · by_cases hc : nleft < size
            · rw [if_pos hc, if_pos (by omega)]; exact s64_natCast _ (by omega)
            · rw [if_neg hc, if_neg (by omega)]
          · intro hall
            exact absurd (find_or_create_page_none alloc mapping _ hfc) (hall _)
      | some pr =>
        obtain ⟨page, m1⟩ := pr
        obtain ⟨hm1, hm1f⟩ := find_or_create_page_some alloc mapping m1 _ page hfc
        have hfd := find_or_create_page_data alloc mapping m1 _ page hfc
        simp only []
        generalize hR : min (cp u L) L = resid
        have hR1 : resid ≤ L := by omega
        have hne : ∀ k2 pgi, (nleft = 0 ∨ pgi * 2 ^ shift + 2 ^ shift ≤ p ∨
            p + nleft ≤ pgi * 2 ^ shift ∨ (p + k2) / 2 ^ shift < pgi) →
            pgi ≠ p / 2 ^ shift := by
          intro k2 pgi hx he
          subst he
          have hmono : p / 2 ^ shift ≤ (p + k2) / 2 ^ shift :=
            Nat.div_le_div_right (Nat.le_add_right p k2)
          omega
        by_cases hr : 0 < resid
        · rw [if_pos hr]
          refine ⟨_, L - resid, rfl, by omega, rfl, rfl, ?_, ?_, ?_, ?_⟩
          · intro j hj
            obtain ⟨h1, h2⟩ := same_page (2 ^ shift) p j hP (by omega)
            refine ⟨{ page with
                data := copy_from_user page.data (p % 2 ^ shift) (fun i => ubuf (u + i)) L resid },
              ?_, ?_, ?_⟩
            · simp only [AddressSpace.set, h1, if_true]
            · simp only [copy_from_user, copy_bytes, h2]
              rw [if_neg (by omega), if_pos (by omega)]
              congr 2; omega
            · intro hk; omega
          · intro pgi hx
            simp only [AddressSpace.set, if_neg (hne (L - resid) pgi hx)]
            exact hm1f pgi (hne (L - resid) pgi hx)
          · intro pgi pg hpg i hi
            by_cases hq : pgi = p / 2 ^ shift
            · subst hq
              simp only [AddressSpace.set, if_true, Option.some.injEq] at hpg
              subst hpg
              simp only [copy_from_user, copy_bytes]
              by_cases hpad : p % 2 ^ shift + (L - resid) ≤ i ∧ i < p % 2 ^ shift + L
              · right
                rw [if_pos hpad]
                exact ⟨by omega, (same_page (2 ^ shift) p (L - resid) hP (by omega)).1.symm, rfl,
                  by omega, by omega, by omega⟩
              · left
                rw [if_neg hpad, if_neg (by omega), hfd]
            · simp only [AddressSpace.set, if_neg hq] at hpg
              rw [hm1f pgi hq] at hpg
              exact Or.inl (frame_data_resident alloc mapping pgi pg hpg i)
          · right
            refine ⟨by omega, EFAULT, Or.inr rfl, ?_, ?_, fun _ => rfl⟩
            · by_cases hc : nleft - (L - resid) < size
              · rw [if_pos hc, if_pos hc]; exact s64_natCast _ (by omega)
              · rw [if_neg hc, if_neg hc]
            · intro hcp
              rw [hcp] at hR
              omega
        · rw [if_neg hr]
          have hr0 : resid = 0 := by omega
          subst hr0
          obtain ⟨r, k, hrun, hk, hloff, hub, hbytes, hframe, hdata, hret⟩ :=
            ih (m1.set (p / 2 ^ shift) (mark_written
                { page with
                  data := copy_from_user page.data (p % 2 ^ shift) (fun i => ubuf (u + i)) L 0 }))
              (p + L) (nleft - L) (u + L) (by omega) (by omega) (by omega)
          have eK : p + L + k = p + (L + k) := by omega
          rw [eK] at hframe hdata
          refine ⟨r, L + k, hrun, by omega, ?_, hub, ?_, ?_, ?_, ?_⟩
          · rw [hloff, eK]
          · intro j hj
            clear hret
            by_cases hjl : j < L
            · obtain ⟨h1, h2⟩ := same_page (2 ^ shift) p j hP (by omega)
              have hq := hframe (p / 2 ^ shift) (by omega)
              refine ⟨mark_written { page with
                  data := copy_from_user page.data (p % 2 ^ shift) (fun i => ubuf (u + i)) L 0 },
                ?_, ?_, ?_⟩
              · rw [h1, hq]
                simp only [AddressSpace.set, if_true]
              · simp only [mark_written, copy_from_user, copy_bytes, h2]
                rw [if_neg (by omega), if_pos (by omega)]
                congr 2; omega
              · intro _; rfl
            · obtain ⟨pg, hpg1, hpg2, hpg3⟩ := hbytes (j - L) (by omega)
              have e1 : p + L + (j - L) = p + j := by omega
              have e2 : u + L + (j - L) = u + j := by omega
              rw [e1] at hpg1 hpg2
              rw [e2] at hpg2
              exact ⟨pg, hpg1, hpg2, fun hk2 => hpg3 (by omega)⟩
          · intro pgi hx
            clear hret
            rw [hframe pgi (by omega)]
            simp only [AddressSpace.set, if_neg (hne (L + k) pgi hx)]
            exact hm1f pgi (hne (L + k) pgi hx)
          · intro pgi pg hpg i hi
            clear hret
            rcases hdata pgi pg hpg i (by omega) with hd | ⟨hd1, hdq, hd2, hd3, hd4, hd5⟩
            · left
              rw [hd]
              by_cases hq : pgi = p / 2 ^ shift
              · subst hq
                simp only [frame_data, AddressSpace.set, if_true, mark_written, copy_from_user,
                  copy_bytes]
                rw [if_neg (by omega), if_neg (by omega), hfd]
                rfl
              · simp only [frame_data, AddressSpace.set, if_neg hq]
                rw [hm1f pgi hq]
            · right
              exact ⟨by omega, hdq, hd2, hd3, by omega, by omega⟩
          · rcases hret with ⟨hk1, hr1⟩ | ⟨hk1, e, he, hr1, hcp1, hal1⟩
            · left; exact ⟨by omega, hr1⟩
            · right
              refine ⟨by omega, e, he, ?_, hcp1, hal1⟩
              rw [hr1]
              have e3 : nleft - L - k = nleft - (L + k) := by omega
              rw [e3]


/-! ## Whole calls -/

/-- `xx_read` from a non-negative position returns, having transferred `k ≤ size`
bytes. -/
theorem xx_read_spec (shift : Nat) (hs : shift < 64) (zp : Nat → Nat → Byte)
    (cp : Nat → Nat → Nat) (mapping : AddressSpace) (ubuf : Nat → Byte) (size p : Nat)
    (hp : p + size < 2 ^ 63) :
    ∃ (r : IOResult) (k : Nat),
      xx_read shift zp cp mapping ubuf size (p : Int) = some r ∧
      k ≤ size ∧ r.loff = ((p + k : Nat) : Int) ∧ r.mapping = mapping ∧
      (∀ j, r.ubuf j = if j < k then readByte shift zp mapping p (p + j) else ubuf j) ∧
      ((k = size ∧ r.ret = (size : Int)) ∨ (k < size ∧ r.ret = if 0 < k then (k : Int) else -EFAULT)) ∧
      ((∀ a b, cp a b = 0) → k = size) := by
  obtain ⟨r, k, hrun, hk, hloff, hmap, hbuf, hret, hfull⟩ :=
    xx_read_loop_spec shift hs zp cp size (by omega) size mapping ubuf p size 0
      (le_refl _) hp (le_refl _)
  refine ⟨r, k, hrun, hk, hloff, hmap, ?_, ?_, hfull⟩
  · intro j
    rw [hbuf j]
    by_cases hj : j < k
    · rw [if_pos hj, if_pos (by omega)]; rfl
    · rw [if_neg hj, if_neg (by omega)]
  · rcases hret with h | ⟨h1, h2⟩
    · exact Or.inl h
    · right
      refine ⟨h1, ?_⟩
      rw [h2]
      by_cases hk0 : 0 < k
      · rw [if_pos hk0, if_pos (by omega)]; congr 1; omega
      · rw [if_neg hk0, if_neg (by omega)]

/-- `xx_write` from a non-negative position returns, having stored the first
`k ≤ size` bytes of the user buffer; pages outside the range or beyond the page
of `p + k` are as before, and any other byte of a page is as before or is zero
padding, in the page of `p + k`, of a copy that stopped short. -/
theorem xx_write_spec (shift : Nat) (hs : shift < 64) (alloc : Nat → Option (Nat → Byte))
    (cp : Nat → Nat → Nat) (mapping : AddressSpace) (ubuf : Nat → Byte) (size p : Nat)
    (hp : p + size < 2 ^ 63) :
    ∃ (r : IOResult) (k : Nat),
      xx_write shift alloc cp mapping ubuf size (p : Int) = some r ∧
      k ≤ size ∧ r.loff = ((p + k : Nat) : Int) ∧ r.ubuf = ubuf ∧
      (∀ j, j < k → ∃ pg, r.mapping ((p + j) / 2 ^ shift) = some pg ∧
          pg.data ((p + j) % 2 ^ shift) = ubuf j ∧ (k = size → pg.uptodate = true)) ∧
      (∀ pgi, (size = 0 ∨ pgi * 2 ^ shift + 2 ^ shift ≤ p ∨ p + size ≤ pgi * 2 ^ shift ∨
            (p + k) / 2 ^ shift < pgi) →
          r.mapping pgi = mapping pgi) ∧
      (∀ pgi pg, r.mapping pgi = some pg → ∀ i,
          ¬ (i < 2 ^ shift ∧ p ≤ pgi * 2 ^ shift + i ∧ pgi * 2 ^ shift + i < p + k) →
          pg.data i = frame_data alloc mapping pgi i ∨
            (k < size ∧ pgi = (p + k) / 2 ^ shift ∧ pg.data i = 0 ∧ i < 2 ^ shift ∧
              p + k ≤ pgi * 2 ^ shift + i ∧ pgi * 2 ^ shift + i < p + size)) ∧
      ((k = size ∧ r.ret = (size : Int)) ∨
        (k < size ∧ ∃ e : Int, (e = ENOMEM ∨ e = EFAULT) ∧
          (r.ret = if 0 < k then (k : Int) else -e) ∧
          ((∀ a b, cp a b = 0) → e = ENOMEM) ∧ ((∀ i, alloc i ≠ none) → e = EFAULT))) := by
  obtain ⟨r, k, hrun, hk, hloff, hub, hbytes, hframe, hdata, hret⟩ :=
    xx_write_loop_spec shift hs alloc cp ubuf size (by omega) size mapping p size 0
      (le_refl _) hp (le_refl _)
  refine ⟨r, k, hrun, hk, hloff, hub, ?_, hframe, hdata, ?_⟩
  · intro j hj
    obtain ⟨pg, h1, h2, h3⟩ := hbytes j hj
    refine ⟨pg, h1, ?_, h3⟩
    rw [h2]; congr 1; omega
  · rcases hret with h | ⟨h1, e, he, h2, h3, h4⟩
    · exact Or.inl h
    · right
      refine ⟨h1, e, he, ?_, h3, h4⟩
      rw [h2]
      by_cases hk0 : 0 < k
      · rw [if_pos hk0, if_pos (by omega)]; congr 1; omega
      · rw [if_neg hk0, if_neg (by omega)]

/-- Where a page is resident a read copies the byte of that page. -/
theorem readByte_resident (shift : Nat) (zp : Nat → Nat → Byte) (m : AddressSpace) (p a : Nat)
    (pg : Page) (h : m (a / 2 ^ shift) = some pg) :
    readByte shift zp m p a = pg.data (a % 2 ^ shift) := by
  simp only [readByte, h]

/-- A write call that returns `size` stored all `size` bytes. -/
theorem xx_write_full (shift : Nat) (hs : shift < 64) (alloc : Nat → Option (Nat → Byte))
    (cp : Nat → Nat → Nat) (mapping : AddressSpace) (ubuf : Nat → Byte) (size p : Nat)
    (hp : p + size < 2 ^ 63)
    (hret : (xx_write shift alloc cp mapping ubuf size (p : Int)).map IOResult.ret
      = some (size : Int)) :
    ∃ w : IOResult,
      xx_write shift alloc cp mapping ubuf size (p : Int) = some w ∧
      w.ret = (size : Int) ∧ w.loff = ((p + size : Nat) : Int) ∧
      (∀ j, j < size → ∃ pg, w.mapping ((p + j) / 2 ^ shift) = some pg ∧
          pg.data ((p + j) % 2 ^ shift) = ubuf j ∧ pg.uptodate = true) ∧
      (∀ pgi, (size = 0 ∨ pgi * 2 ^ shift + 2 ^ shift ≤ p ∨ p + size ≤ pgi * 2 ^ shift) →
          w.mapping pgi = mapping pgi) ∧
      (∀ pgi pg, w.mapping pgi = some pg → ∀ i,
          ¬ (i < 2 ^ shift ∧ p ≤ pgi * 2 ^ shift + i ∧ pgi * 2 ^ shift + i < p + size) →
          pg.data i = frame_data alloc mapping pgi i) := by
  obtain ⟨w, k, hrun, hk, hloff, _, hbytes, hframe, hdata, hr⟩ :=
    xx_write_spec shift hs alloc cp mapping ubuf size p hp
  rw [hrun] at hret
  simp only [Option.map_some', Option.some.injEq] at hret
  have hks : k = size := by
    rcases hr with ⟨h1, _⟩ | ⟨h1, e, he, h2, _, _⟩
    · exact h1
    · exfalso
      rw [hret] at h2
      by_cases hk0 : 0 < k
      · rw [if_pos hk0] at h2; omega
      · rw [if_neg hk0] at h2
        rcases he with he | he <;> subst he <;> simp only [ENOMEM, EFAULT] at h2 <;> omega
  subst hks
  refine ⟨w, hrun, hret, hloff, ?_, ?_, ?_⟩
  · intro j hj
    obtain ⟨pg, h1, h2, h3⟩ := hbytes j hj
    exact ⟨pg, h1, h2, h3 rfl⟩
  · intro pgi hx
    clear hr
    exact hframe pgi (by omega)
  · intro pgi pg hpg i hi
    rcases hdata pgi pg hpg i hi with h | ⟨h, _⟩
    · exact h
    · omega

/-- C1 (round trip): a write of the byte string `b` at position `p` that returns
`len(b)`, followed by a read of `len(b)` bytes at `p` during which no copy to
the user buffer fails, returns the count `len(b)` and delivers exactly `b`,
whatever the page size, the prior page cache, the allocator's frames, the
memory at `ZERO_PAGE` and the part of the range inside each page. -/
theorem xx_write_read_roundtrip (shift : Nat) (hs : shift < 64)
    (alloc : Nat → Option (Nat → Byte)) (zp : Nat → Nat → Byte) (cpw cpr : Nat → Nat → Nat)
    (mapping : AddressSpace)
    (b : List Byte) (ubuf0 : Nat → Byte) (p : Nat) (hp : p + b.length < 2 ^ 63)
    (hw : (xx_write shift alloc cpw mapping (fun i => b.getD i 0) b.length (p : Int)).map
      IOResult.ret = some (b.length : Int))
    (hcp : ∀ a n, cpr a n = 0) :
    ∃ w r : IOResult,
      xx_write shift alloc cpw mapping (fun i => b.getD i 0) b.length (p : Int) = some w ∧
      xx_read shift zp cpr w.mapping ubuf0 b.length (p : Int) = some r ∧
      r.ret = (b.length : Int) ∧ (List.range b.length).map r.ubuf = b := by
  obtain ⟨w, hrun, _, _, hbytes, _, _⟩ :=
    xx_write_full shift hs alloc cpw mapping (fun i => b.getD i 0) b.length p hp hw
  obtain ⟨r, k, hrd, _, _, _, hbuf, hret, hfull⟩ :=
    xx_read_spec shift hs zp cpr w.mapping ubuf0 b.length p hp
  have hk : k = b.length := hfull hcp
  subst hk
  refine ⟨w, r, hrun, hrd, ?_, ?_⟩
  · rcases hret with h | h
    · exact h.2
    · omega
  · apply List.ext_getElem
    · simp
    · intro j h1 h2
      simp only [List.getElem_map, List.getElem_range]
      rw [hbuf j, if_pos h2]
      obtain ⟨pg, hp1, hp2, _⟩ := hbytes j h2
      rw [readByte_resident shift zp w.mapping p (p + j) pg hp1, hp2]
      simp [List.getD_eq_getElem?_getD, h2]

theorem xx_write_read_roundtrip_witness :
    ∃ w r : IOResult,
      xx_write 12 (fun _ => some (fun _ => 7)) (fun _ _ => 0) (fun _ => none)
        (fun i => [1, 2, 3].getD i 0) 3 4094 = some w ∧
      xx_read 12 zp_sample (fun _ _ => 0) w.mapping (fun _ => 9) 3 4094 = some r ∧
      r.ret = 3 ∧ (List.range 3).map r.ubuf = [1, 2, 3] :=
  xx_write_read_roundtrip 12 (by decide) (fun _ => some (fun _ => 7)) zp_sample (fun _ _ => 0)
    (fun _ _ => 0) (fun _ => none) [1, 2, 3] (fun _ => 9) 4094 (by decide) (by decide)
    (fun _ _ => rfl)


/-! ## The fault handler on resident pages -/

/-- A fault on a resident, up-to-date page is minor and hands out that page as
it is. -/
theorem xx_vm_fault_uptodate (shift : Nat) (alloc : Nat → Option (Nat → Byte))
    (m : AddressSpace) (pgoff : Nat) (pg : Page) (h : m pgoff = some pg)
    (hu : pg.uptodate = true) :
    xx_vm_fault shift alloc m pgoff = { rc := 0, page := some pg, mapping := m } := by
  simp [xx_vm_fault, find_or_create_page, h, hu]

/-- The page a fault hands out is the page resident at that index afterwards. -/
theorem xx_vm_fault_page (shift : Nat) (alloc : Nat → Option (Nat → Byte))
    (m : AddressSpace) (pgoff : Nat) (pg : Page)
    (h : (xx_vm_fault shift alloc m pgoff).page = some pg) :
    (xx_vm_fault shift alloc m pgoff).mapping pgoff = some pg := by
  unfold xx_vm_fault at h ⊢
  cases hfc : find_or_create_page alloc m pgoff with
  | none => rw [hfc] at h; simp at h
  | some pr =>
    obtain ⟨page, m1⟩ := pr
    obtain ⟨hm1, _⟩ := find_or_create_page_some alloc m m1 pgoff page hfc
    rw [hfc] at h
    simp only [] at h ⊢
    by_cases hu : (!page.uptodate) = true
    · rw [if_pos hu] at h ⊢
      simp only [Option.some.injEq] at h
      simp only [AddressSpace.set, if_true, h]
    · rw [if_neg hu] at h ⊢
      simp only [Option.some.injEq] at h
      simp only [hm1, h]

/-- C2 (stream/map coherence).  First part: after a write of `b` at `p` that
returns `len(b)`, a map fault on the page of any position `p + j` of the range
is minor, hands out a page holding `b[j]` at that position, and leaves that
page resident at its index.  Second part: bytes stored through the mapping
into the page a fault handed out are what a read of that range, with no copy
failure, returns, whatever the memory at `ZERO_PAGE`. -/
theorem stream_map_coherent (shift : Nat) (hs : shift < 64) :
    (∀ (alloc alloc' : Nat → Option (Nat → Byte)) (cp : Nat → Nat → Nat) (mapping : AddressSpace)
        (b : List Byte) (p j : Nat),
        p + b.length < 2 ^ 63 →
        (xx_write shift alloc cp mapping (fun i => b.getD i 0) b.length (p : Int)).map
          IOResult.ret = some (b.length : Int) →
        j < b.length →
        ∃ (w : IOResult) (pg : Page),
          xx_write shift alloc cp mapping (fun i => b.getD i 0) b.length (p : Int) = some w ∧
          (xx_vm_fault shift alloc' w.mapping ((p + j) / 2 ^ shift)).page = some pg ∧
          (xx_vm_fault shift alloc' w.mapping ((p + j) / 2 ^ shift)).rc = 0 ∧
          pg.data ((p + j) % 2 ^ shift) = b.getD j 0 ∧
          (xx_vm_fault shift alloc' w.mapping ((p + j) / 2 ^ shift)).mapping
              ((p + j) / 2 ^ shift) = some pg) ∧
    (∀ (alloc : Nat → Option (Nat → Byte)) (zp : Nat → Nat → Byte) (cp : Nat → Nat → Nat)
        (mapping : AddressSpace)
        (ubuf0 : Nat → Byte) (pgoff off : Nat) (bytes : List Byte) (pg : Page),
        (xx_vm_fault shift alloc mapping pgoff).page = some pg →
        off + bytes.length ≤ 2 ^ shift →
        pgoff * 2 ^ shift + off + bytes.length < 2 ^ 63 →
        (∀ a n, cp a n = 0) →
        ∃ r : IOResult,
          xx_read shift zp cp
            (mmap_store (xx_vm_fault shift alloc mapping pgoff).mapping pgoff off bytes)
            ubuf0 bytes.length ((pgoff * 2 ^ shift + off : Nat) : Int) = some r ∧
          r.ret = (bytes.length : Int) ∧ (List.range bytes.length).map r.ubuf = bytes) := by
  constructor
  · intro alloc alloc' cp mapping b p j hp hw hj
    obtain ⟨w, hrun, _, _, hbytes, _, _⟩ :=
      xx_write_full shift hs alloc cp mapping (fun i => b.getD i 0) b.length p hp hw
    obtain ⟨pg, h1, h2, h3⟩ := hbytes j hj
    refine ⟨w, pg, hrun, ?_⟩
    rw [xx_vm_fault_uptodate shift alloc' w.mapping _ pg h1 h3]
    exact ⟨rfl, rfl, h2, h1⟩
  · intro alloc zp cp mapping ubuf0 pgoff off bytes pg hpg hoff hp hcp
    have hres := xx_vm_fault_page shift alloc mapping pgoff pg hpg
    obtain ⟨r, k, hrd, _, _, _, hbuf, hret, hfull⟩ :=
      xx_read_spec shift hs zp cp
        (mmap_store (xx_vm_fault shift alloc mapping pgoff).mapping pgoff off bytes)
        ubuf0 bytes.length (pgoff * 2 ^ shift + off) hp
    have hk : k = bytes.length := hfull hcp
    subst hk
    refine ⟨r, hrd, ?_, ?_⟩
    · rcases hret with h | h
      · exact h.2
      · omega
    · apply List.ext_getElem
      · simp
      · intro j h1 h2
        simp only [List.getElem_map, List.getElem_range]
        rw [hbuf j, if_pos h2]
        obtain ⟨e1, e2⟩ := div_mod_in_page (2 ^ shift) pgoff (off + j) (by omega)
        have e3 : pgoff * 2 ^ shift + off + j = pgoff * 2 ^ shift + (off + j) := by omega
        simp only [readByte, e3, e1, e2, mmap_store, hres, AddressSpace.set, if_true, copy_bytes]
        rw [if_pos (by omega)]
        simp [List.getD_eq_getElem?_getD, h2]

theorem stream_map_coherent_witness :
    (∃ (w : IOResult) (pg : Page),
      xx_write 12 (fun _ => some (fun _ => 7)) (fun _ _ => 0) (fun _ => none)
        (fun i => [1, 2, 3].getD i 0) 3 4094 = some w ∧
      (xx_vm_fault 12 (fun _ => none) w.mapping ((4094 + 2) / 2 ^ 12)).page = some pg ∧
      (xx_vm_fault 12 (fun _ => none) w.mapping ((4094 + 2) / 2 ^ 12)).rc = 0 ∧
      pg.data ((4094 + 2) % 2 ^ 12) = [1, 2, 3].getD 2 0 ∧
      (xx_vm_fault 12 (fun _ => none) w.mapping ((4094 + 2) / 2 ^ 12)).mapping
          ((4094 + 2) / 2 ^ 12) = some pg) ∧
    (∃ r : IOResult,
      xx_read 12 zp_sample (fun _ _ => 0)
        (mmap_store (xx_vm_fault 12 (fun _ => some (fun _ => 7)) (fun _ => none) 1).mapping 1 5
          [4, 5])
        (fun _ => 9) 2 ((1 * 2 ^ 12 + 5 : Nat) : Int) = some r ∧
      r.ret = 2 ∧ (List.range 2).map r.ubuf = [4, 5]) :=
  ⟨(stream_map_coherent 12 (by decide)).1 (fun _ => some (fun _ => 7)) (fun _ => none)
      (fun _ _ => 0) (fun _ => none) [1, 2, 3] 4094 2 (by decide) (by decide) (by decide),
    (stream_map_coherent 12 (by decide)).2 (fun _ => some (fun _ => 7)) zp_sample (fun _ _ => 0)
      (fun _ => none) (fun _ => 9) 1 5 [4, 5]
      { data := fun i => if i < PAGE_CACHE_SIZE 12 then 0 else 7, uptodate := true,
        dirty := false, reserved := false }
      rfl (by decide) (by decide) (fun _ _ => rfl)⟩


/-- C3 (hole read), evaluated on the code: on an empty page cache, with the byte
4 in the memory at the `ZERO_PAGE` pointer, a read of 2 bytes at offset 4095
(the last byte of page 0 and the first of page 1, no copy failing) returns 2 and
delivers the bytes 4 and 4, not zeros: in the branch for an absent page
`xx_read` passes `ZERO_PAGE(pgoff)`, a page descriptor pointer, to
`copy_to_user` where the branch for a resident page passes `page_address`.
No page is resident afterwards. -/
theorem xx_read_hole_copies_descriptor :
    (xx_read 12 zp_sample (fun _ _ => 0) (fun _ => none) (fun _ => 9) 2 4095).map
      (fun r => (r.ret, r.ubuf 0, r.ubuf 1, (r.mapping 0).isSome, (r.mapping 1).isSome))
      = some (2, 4, 4, false, false) := by
  decide

/-- C4 (sparse gap), evaluated on the code: on an empty page cache, with an
allocator whose frame holds the byte 7 everywhere, a write of one byte at
offset 1 returns 1 and a following read of `[0, 1)` returns 1 byte, which is 7,
not 0: `xx_write` copies into the page it creates without clearing it and marks
it up to date. -/
theorem xx_write_gap_reads_frame :
    (xx_write 12 (fun _ => some (fun _ => 7)) (fun _ _ => 0) (fun _ => none)
        (fun i => [1].getD i 0) 1 1).bind
      (fun w => (xx_read 12 zp_sample (fun _ _ => 0) w.mapping (fun _ => 0) 1 0).map
        (fun r => (w.ret, r.ret, r.ubuf 0)))
      = some (1, 1, 7) := by
  decide

/-- C9 (partial write marks the page), evaluated on the code: on an empty page
cache, a write of two bytes at offset 0 whose copy stops after one byte returns
1 and leaves page 0 holding that byte but neither up to date nor dirty; a map
fault on page 0 then is major and page 0 holds 0 at offset 0. -/
theorem xx_write_partial_unmarked :
    (xx_write 12 (fun _ => some (fun _ => 7)) (fun _ _ => 1) (fun _ => none)
        (fun i => [5, 6].getD i 0) 2 0).map
      (fun w => (w.ret, (w.mapping 0).map (fun pg => (pg.data 0, pg.uptodate, pg.dirty)),
        (xx_vm_fault 12 (fun _ => none) w.mapping 0).rc,
        ((xx_vm_fault 12 (fun _ => none) w.mapping 0).mapping 0).map (fun pg => pg.data 0)))
      = some (1, some (5, false, false), VM_FAULT_MAJOR, some 0) := by
  decide

/-- C8 (partial-progress reporting).  A read and a write of `n` bytes from a
non-negative position return, under every pattern of copy residues and of
allocation failures, either a count `k ≤ n` or a hard error.  With a count `k`
(positive unless `n = 0`, and `n` when nothing fails) the position has advanced
by `k` and exactly `k` bytes were transferred: a read has stored in the first
`k` bytes of the user buffer the bytes the code copies for positions
`p, ..., p + k - 1` (those of the resident page, or the memory at `ZERO_PAGE`
where none is resident) and left the rest of the buffer and the page cache
alone; a write has stored the first `k` bytes of the user buffer in resident
pages at those positions, has left pages before the page of `p` and after the
page of `p + k` alone, and any other byte of a page is as the page or its frame
had it, or is zero padding by `copy_from_user` in the page of `p + k` after the
copy that stopped short.  A hard error is `-EFAULT`, which needs a copy that
left a residue, or for a write `-ENOMEM`, which needs an allocation that
failed; it is returned only with `n > 0`, the position unchanged and no byte
transferred: the user buffer (read) is as before, and (write) every page but
the page of `p` is as before, that page holding its former or its frame's
bytes or zero padding. -/
theorem xx_rw_partial_progress (shift : Nat) (hs : shift < 64) :
    (∀ (zp : Nat → Nat → Byte) (cp : Nat → Nat → Nat) (mapping : AddressSpace)
        (ubuf0 : Nat → Byte) (n p : Nat),
        p + n < 2 ^ 63 →
        ∃ r : IOResult, xx_read shift zp cp mapping ubuf0 n (p : Int) = some r ∧
          r.mapping = mapping ∧
          ((∃ k : Nat, k ≤ n ∧ (0 < n → 0 < k) ∧ ((∀ a b, cp a b = 0) → k = n) ∧
              r.ret = (k : Int) ∧ r.loff = (p : Int) + (k : Int) ∧
              (∀ j, r.ubuf j = if j < k then readByte shift zp mapping p (p + j) else ubuf0 j)) ∨
            (r.ret = -EFAULT ∧ 0 < n ∧ r.loff = (p : Int) ∧ (∀ j, r.ubuf j = ubuf0 j) ∧
              ¬ (∀ a b, cp a b = 0)))) ∧
    (∀ (alloc : Nat → Option (Nat → Byte)) (cp : Nat → Nat → Nat) (mapping : AddressSpace)
        (ubuf : Nat → Byte) (n p : Nat),
        p + n < 2 ^ 63 →
        ∃ w : IOResult, xx_write shift alloc cp mapping ubuf n (p : Int) = some w ∧
          w.ubuf = ubuf ∧
          ((∃ k : Nat, k ≤ n ∧ (0 < n → 0 < k) ∧
              ((∀ a b, cp a b = 0) → (∀ i, alloc i ≠ none) → k = n) ∧
              w.ret = (k : Int) ∧ w.loff = (p : Int) + (k : Int) ∧
              (∀ j, j < k → ∃ pg, w.mapping ((p + j) / 2 ^ shift) = some pg ∧
                pg.data ((p + j) % 2 ^ shift) = ubuf j) ∧
              (∀ pgi, (pgi < p / 2 ^ shift ∨ (p + k) / 2 ^ shift < pgi) →
                w.mapping pgi = mapping pgi) ∧
              (∀ pgi pg, w.mapping pgi = some pg → ∀ i,
                ¬ (i < 2 ^ shift ∧ p ≤ pgi * 2 ^ shift + i ∧ pgi * 2 ^ shift + i < p + k) →
                pg.data i = frame_data alloc mapping pgi i ∨
                  (k < n ∧ pgi = (p + k) / 2 ^ shift ∧ pg.data i = 0 ∧ i < 2 ^ shift ∧
                    p + k ≤ pgi * 2 ^ shift + i ∧ pgi * 2 ^ shift + i < p + n))) ∨
            (((w.ret = -EFAULT ∧ ¬ (∀ a b, cp a b = 0)) ∨
                (w.ret = -ENOMEM ∧ ¬ (∀ i, alloc i ≠ none))) ∧
              0 < n ∧ w.loff = (p : Int) ∧
              (∀ pgi, pgi ≠ p / 2 ^ shift → w.mapping pgi = mapping pgi) ∧
              (∀ pg, w.mapping (p / 2 ^ shift) = some pg → ∀ i,
                pg.data i = frame_data alloc mapping (p / 2 ^ shift) i ∨
                  (pg.data i = 0 ∧ i < 2 ^ shift ∧
                    p ≤ p / 2 ^ shift * 2 ^ shift + i ∧
                    p / 2 ^ shift * 2 ^ shift + i < p + n))))) := by
  have hP : 0 < 2 ^ shift := Nat.two_pow_pos shift
  constructor
  · intro zp cp mapping ubuf0 n p hp
    obtain ⟨r, k, hrd, hk, hloff, hmap, hbuf, hret, hfull⟩ :=
      xx_read_spec shift hs zp cp mapping ubuf0 n p hp
    refine ⟨r, hrd, hmap, ?_⟩
    rcases hret with ⟨h1, h2⟩ | ⟨h1, h2⟩
    · left
      subst h1
      exact ⟨k, le_refl _, fun h => h, fun _ => rfl, h2, by rw [hloff]; push_cast; rfl, hbuf⟩
    · by_cases hk0 : 0 < k
      · left
        rw [if_pos hk0] at h2
        exact ⟨k, hk, fun _ => hk0, hfull, h2, by rw [hloff]; push_cast; rfl, hbuf⟩
      · right
        rw [if_neg hk0] at h2
        have hk00 : k = 0 := by omega
        subst hk00
        refine ⟨h2, by omega, by rw [hloff]; simp, ?_, ?_⟩
        · intro j; rw [hbuf j, if_neg (by omega)]
        · intro hall
          have := hfull hall
          omega
  · intro alloc cp mapping ubuf n p hp
    obtain ⟨w, k, hrun, hk, hloff, hub, hbytes, hframe, hdata, hret⟩ :=
      xx_write_spec shift hs alloc cp mapping ubuf n p hp
    refine ⟨w, hrun, hub, ?_⟩
    have hbelow : ∀ pgi, pgi < p / 2 ^ shift → pgi * 2 ^ shift + 2 ^ shift ≤ p := by
      intro pgi h
      have h1 : (pgi + 1) * 2 ^ shift ≤ p := (Nat.le_div_iff_mul_le hP).mp h
      rw [Nat.add_mul, Nat.one_mul] at h1
      exact h1
    have hfull : (∀ a b, cp a b = 0) → (∀ i, alloc i ≠ none) → k = n := by
      intro hcp hal
      rcases hret with ⟨h1, _⟩ | ⟨_, e, _, _, h3, h4⟩
      · exact h1
      · exfalso
        have e1 := h3 hcp
        have e2 := h4 hal
        rw [e1] at e2
        simp [ENOMEM, EFAULT] at e2
    have hcount : (0 < n → 0 < k) → (w.ret = (k : Int)) →
        ∃ k : Nat, k ≤ n ∧ (0 < n → 0 < k) ∧
          ((∀ a b, cp a b = 0) → (∀ i, alloc i ≠ none) → k = n) ∧
          w.ret = (k : Int) ∧ w.loff = (p : Int) + (k : Int) ∧
          (∀ j, j < k → ∃ pg, w.mapping ((p + j) / 2 ^ shift) = some pg ∧
            pg.data ((p + j) % 2 ^ shift) = ubuf j) ∧
          (∀ pgi, (pgi < p / 2 ^ shift ∨ (p + k) / 2 ^ shift < pgi) →
            w.mapping pgi = mapping pgi) ∧
          (∀ pgi pg, w.mapping pgi = some pg → ∀ i,
            ¬ (i < 2 ^ shift ∧ p ≤ pgi * 2 ^ shift + i ∧ pgi * 2 ^ shift + i < p + k) →
            pg.data i = frame_data alloc mapping pgi i ∨
              (k < n ∧ pgi = (p + k) / 2 ^ shift ∧ pg.data i = 0 ∧ i < 2 ^ shift ∧
                p + k ≤ pgi * 2 ^ shift + i ∧ pgi * 2 ^ shift + i < p + n)) := by
      intro hpos h
      refine ⟨k, hk, hpos, hfull, h, by rw [hloff]; push_cast; rfl, ?_, ?_, hdata⟩
      · intro j hj
        obtain ⟨pg, h1, h2, _⟩ := hbytes j hj
        exact ⟨pg, h1, h2⟩
      · intro pgi hx
        rcases hx with hx | hx
        · exact hframe pgi (Or.inr (Or.inl (hbelow pgi hx)))
        · exact hframe pgi (Or.inr (Or.inr (Or.inr hx)))
    rcases hret with ⟨h1, h2⟩ | ⟨h1, e, he, h2, h3, h4⟩
    · left
      exact hcount (fun h => by omega) (by rw [h2, h1])
    · by_cases hk0 : 0 < k
      · left
        rw [if_pos hk0] at h2
        exact hcount (fun _ => hk0) h2
      · right
        rw [if_neg hk0] at h2
        have hk00 : k = 0 := by omega
        subst hk00
        refine ⟨?_, by omega, by rw [hloff]; simp, ?_, ?_⟩
        · rcases he with he | he
          · right
            subst he
            refine ⟨h2, fun hall => ?_⟩
            have := h4 hall
            simp [ENOMEM, EFAULT] at this
          · left
            subst he
            refine ⟨h2, fun hall => ?_⟩
            have := h3 hall
            simp [ENOMEM, EFAULT] at this
        · intro pgi hne
          rcases Nat.lt_or_gt_of_ne hne with hlt | hgt
          · exact hframe pgi (Or.inr (Or.inl (hbelow pgi hlt)))
          · exact hframe pgi (Or.inr (Or.inr (Or.inr (by simpa using hgt))))
        · intro pg hpg i
          rcases hdata (p / 2 ^ shift) pg hpg i (by omega) with h | ⟨_, _, h5, h6, h7, h8⟩
          · exact Or.inl h
          · exact Or.inr ⟨h5, h6, by omega, h8⟩

theorem xx_rw_partial_progress_witness :
    (∃ r : IOResult, xx_read 12 zp_sample (fun u _ => if u = 0 then 0 else 3) mapping_sample
        (fun _ => 9) 5000 ((3 * 4096 - 96 : Nat) : Int) = some r ∧
      r.mapping = mapping_sample ∧
      ((∃ k : Nat, k ≤ 5000 ∧ (0 < 5000 → 0 < k) ∧
          ((∀ a b, (fun u _ => if u = 0 then 0 else 3 : Nat → Nat → Nat) a b = 0) → k = 5000) ∧
          r.ret = (k : Int) ∧ r.loff = ((3 * 4096 - 96 : Nat) : Int) + (k : Int) ∧
          (∀ j, r.ubuf j = if j < k
            then readByte 12 zp_sample mapping_sample (3 * 4096 - 96) (3 * 4096 - 96 + j)
            else (fun _ => (9 : Byte)) j)) ∨
        (r.ret = -EFAULT ∧ 0 < 5000 ∧ r.loff = ((3 * 4096 - 96 : Nat) : Int) ∧
          (∀ j, r.ubuf j = (fun _ => (9 : Byte)) j) ∧
          ¬ (∀ a b, (fun u _ => if u = 0 then 0 else 3 : Nat → Nat → Nat) a b = 0)))) ∧
    (∃ w : IOResult, xx_write 12 (fun i => if i = 0 then some (fun _ => 7) else none)
        (fun _ _ => 0) (fun _ => none) (fun _ => 1) 5000 (4000 : Nat) = some w ∧
      w.ret = 96 ∧ w.loff = 4096) := by
  refine ⟨(xx_rw_partial_progress 12 (by decide)).1 zp_sample (fun u _ => if u = 0 then 0 else 3)
      mapping_sample (fun _ => 9) 5000 (3 * 4096 - 96) (by norm_num), ?_⟩
  obtain ⟨w, hw, _, _⟩ :=
    (xx_rw_partial_progress 12 (by decide)).2 (fun i => if i = 0 then some (fun _ => 7) else none)
      (fun _ _ => 0) (fun _ => none) (fun _ => 1) 5000 4000 (by norm_num)
  refine ⟨w, hw, ?_⟩
  have hv : (xx_write 12 (fun i => if i = 0 then some (fun _ => 7) else none)
      (fun _ _ => 0) (fun _ => none) (fun _ => 1) 5000 (4000 : Nat)).map
      (fun w => (w.ret, w.loff)) = some (96, 4096) := by decide
  rw [hw] at hv
  simp only [Option.map_some', Option.some.injEq, Prod.mk.injEq] at hv
  exact hv


/-! ## The unit table -/

theorem MINOR_MKDEV (ma mi : Nat) (h : mi < 2 ^ 20) : MINOR (MKDEV ma mi) = mi := by
  unfold MINOR MKDEV MINORBITS
  rw [Nat.and_pow_two_sub_one_eq_mod, Nat.shiftLeft_eq, Nat.mul_comm,
    ← Nat.mul_add_lt_is_or h, Nat.mul_add_mod, Nat.mod_eq_of_lt h]

theorem setSlot_same (inst : xx_inst) (m : Nat) (s : Slot) : (inst.setSlot m s).i_unit m = s := by
  simp [xx_inst.setSlot]

theorem setSlot_klog (inst : xx_inst) (m : Nat) (s : Slot) : (inst.setSlot m s).klog = inst.klog :=
  rfl

theorem call_klog (inst : xx_inst) (c : KCall) : (inst.call c).klog = inst.klog ++ [c] := rfl

theorem s32_natCast (n : Nat) (h : n < 2 ^ 31) : s32 (n : Int) = n := by
  unfold s32
  omega

/-- One reference operation made by a holder keeps the unit's state in step with
the number of references held. -/
theorem refStep_inv (xx_units_max m devno c k : Nat) (hm : m < xx_units_max)
    (hd : MINOR devno = m) (s : xx_inst) (h : Nat) (op : RefOp)
    (hinv : RefInv m devno c k s h) (hb : h + 1 < 2 ^ 31)
    (hheld : op = RefOp.lookup ∨ 0 < h) :
    RefInv m devno c k (refStep xx_units_max m s op) (heldStep h op) := by
  obtain ⟨hpos, hzero⟩ := hinv
  have hinc : 0 < h → RefInv m devno c k
      (match s.i_unit m with
        | Slot.live unit =>
          s.setSlot m (Slot.live { unit with un_refcnt := s32 (unit.un_refcnt + 1) })
        | _ => s) (h + 1) := by
    intro h0
    obtain ⟨u, hu, hr, hdv, hc, hk⟩ := hpos h0
    rw [hu]
    refine ⟨fun _ => ⟨_, setSlot_same _ _ _, ?_, hdv, hc, hk⟩, fun hz => by omega⟩
    simp only [hr]
    have e : (h : Int) + 1 = ((h + 1 : Nat) : Int) := by push_cast; rfl
    rw [e, s32_natCast _ (by omega)]
  cases op with
  | lookup =>
    simp only [refStep, heldStep, xx_unit_get_by_minor, if_pos hm]
    by_cases h0 : h = 0
    · obtain ⟨he, hc, hk⟩ := hzero h0
      rw [if_pos h0, he]
      exact ⟨fun hh => by omega, fun _ => ⟨he, hc, hk⟩⟩
    · rw [if_neg h0]
      have := hinc (by omega)
      obtain ⟨u, hu, _⟩ := hpos (by omega)
      rw [hu] at this ⊢
      exact this
  | get =>
    have h0 : 0 < h := by
      rcases hheld with hx | hx
      · cases hx
      · exact hx
    simp only [refStep, heldStep, xx_unit_get]
    have := hinc h0
    obtain ⟨u, hu, _⟩ := hpos h0
    rw [hu] at this ⊢
    exact this
  | put =>
    have h0 : 0 < h := by
      rcases hheld with hx | hx
      · cases hx
      · exact hx
    obtain ⟨u, hu, hr, hdv, hc, hk⟩ := hpos h0
    simp only [refStep, heldStep, xx_unit_put, hu, hr]
    have e : (h : Int) - 1 = ((h - 1 : Nat) : Int) := by omega
    rw [e, s32_natCast _ (by omega)]
    by_cases h1 : h = 1
    · subst h1
      simp only [Nat.sub_self, Nat.cast_zero, if_true, xx_unit_destroy, hdv, hd]
      refine ⟨fun hh => by omega, fun _ => ⟨setSlot_same _ _ _, ?_, ?_⟩⟩
      · by_cases hmp : u.un_mapping = true
        · simp [hmp, setSlot_klog, call_klog, List.count_append, hc]
        · simp [hmp, setSlot_klog, call_klog, List.count_append, hc]
      · by_cases hmp : u.un_mapping = true
        · simp [hmp, setSlot_klog, call_klog, List.count_append, hk]
        · simp [hmp, setSlot_klog, call_klog, List.count_append, hk]
    · have hne : ¬ (((h - 1 : Nat) : Int) = 0) := by omega
      rw [if_neg hne]
      exact ⟨fun _ => ⟨_, setSlot_same _ _ _, rfl, hdv, hc, hk⟩, fun hz => by omega⟩

theorem heldStep_le (h : Nat) (op : RefOp) : heldStep h op ≤ h + 1 := by
  cases op <;> simp only [heldStep] <;> (try split) <;> omega

/-- Any sequence of reference operations made by holders keeps the unit's state
in step with the number of references held. -/
theorem refOps_inv (xx_units_max m devno c k : Nat) (hm : m < xx_units_max)
    (hd : MINOR devno = m) (ops : List RefOp) :
    ∀ (s : xx_inst) (h : Nat), RefInv m devno c k s h → h + ops.length < 2 ^ 31 →
      wellHeld h ops = true →
      RefInv m devno c k (ops.foldl (refStep xx_units_max m) s) (heldAfter h ops) := by
  induction ops with
  | nil => intro s h hinv _ _; exact hinv
  | cons op ops ih =>
    intro s h hinv hb hv
    simp only [List.foldl_cons, heldAfter]
    simp only [List.length_cons] at hb
    have hle := heldStep_le h op
    have hheld : op = RefOp.lookup ∨ 0 < h := by
      cases op with
      | lookup => exact Or.inl rfl
      | get => right; simp [wellHeld] at hv; exact hv.1
      | put => right; simp [wellHeld] at hv; exact hv.1
    have hv2 : wellHeld (heldStep h op) ops = true := by
      cases op with
      | lookup => simpa [wellHeld] using hv
      | get => simp [wellHeld] at hv; exact hv.2
      | put => simp [wellHeld] at hv; exact hv.2
    exact ih _ _ (refStep_inv xx_units_max m devno c k hm hd s h op hinv (by omega) hheld)
      (by omega) hv2


/-- C7 (reference-count lifecycle): a unit created at an empty entry `m` starts
with count 1, and after any sequence of acquires and releases in which every
`get` and `put` is made while a reference is held, with `h` references then
held: if `h > 0` the entry is still the unit, its count is `h` (positive), and
no destruction of it has been logged since creation; if `h = 0` the entry is
`NULL` and exactly one `device_destroy` and one more `kfree` of it have been
logged.  Since this holds after every prefix, the one destruction happens at the
release that takes the count from 1 to 0. -/
theorem xx_unit_refcount_lifecycle (xx_units_max m : Nat) (hm : m < xx_units_max)
    (hm2 : m < 2 ^ 20) (utype : xx_utype) (fmt : Nat → String) (inst : xx_inst)
    (hempty : inst.i_unit m = Slot.empty) (ops : List RefOp)
    (hlen : ops.length + 1 < 2 ^ 31) (hv : wellHeld 1 ops = true) :
    (xx_unit_create utype fmt m true true inst).2 = UnitPtr.unit m ∧
    (∃ u, (xx_unit_create utype fmt m true true inst).1.i_unit m = Slot.live u ∧
      u.un_refcnt = 1) ∧
    (0 < heldAfter 1 ops →
      ∃ u, (ops.foldl (refStep xx_units_max m) (xx_unit_create utype fmt m true true inst).1).i_unit m
          = Slot.live u ∧
        u.un_refcnt = (heldAfter 1 ops : Int) ∧ 0 < u.un_refcnt ∧
        (ops.foldl (refStep xx_units_max m) (xx_unit_create utype fmt m true true inst).1).klog.count
            (KCall.device_destroy (MKDEV (MAJOR inst.i_devno) m))
          = (xx_unit_create utype fmt m true true inst).1.klog.count
            (KCall.device_destroy (MKDEV (MAJOR inst.i_devno) m))) ∧
    (heldAfter 1 ops = 0 →
      (ops.foldl (refStep xx_units_max m) (xx_unit_create utype fmt m true true inst).1).i_unit m
          = Slot.empty ∧
        (ops.foldl (refStep xx_units_max m) (xx_unit_create utype fmt m true true inst).1).klog.count
            (KCall.device_destroy (MKDEV (MAJOR inst.i_devno) m))
          = (xx_unit_create utype fmt m true true inst).1.klog.count
            (KCall.device_destroy (MKDEV (MAJOR inst.i_devno) m)) + 1 ∧
        (ops.foldl (refStep xx_units_max m) (xx_unit_create utype fmt m true true inst).1).klog.count
            (KCall.kfree_unit (MKDEV (MAJOR inst.i_devno) m))
          = (xx_unit_create utype fmt m true true inst).1.klog.count
            (KCall.kfree_unit (MKDEV (MAJOR inst.i_devno) m)) + 1) := by
  have hcr : xx_unit_create utype fmt m true true inst =
      ((((inst.setSlot m Slot.busy).call
          (KCall.device_create (MKDEV (MAJOR inst.i_devno) m) true)).setSlot m
          (Slot.live
            { un_name := fmt m, un_devno := MKDEV (MAJOR inst.i_devno) m, un_refcnt := 1,
              un_uid := utype.ut_uid, un_gid := utype.ut_gid, un_mode := utype.ut_mode,
              un_fops := utype.ut_fops, un_mapping := false })), UnitPtr.unit m) := by
    simp [xx_unit_create, hempty]
  rw [hcr]
  simp only []
  have hinv0 : RefInv m (MKDEV (MAJOR inst.i_devno) m)
      (inst.klog.count (KCall.device_destroy (MKDEV (MAJOR inst.i_devno) m)))
      (inst.klog.count (KCall.kfree_unit (MKDEV (MAJOR inst.i_devno) m)))
      (((inst.setSlot m Slot.busy).call
          (KCall.device_create (MKDEV (MAJOR inst.i_devno) m) true)).setSlot m
          (Slot.live
            { un_name := fmt m, un_devno := MKDEV (MAJOR inst.i_devno) m, un_refcnt := 1,
              un_uid := utype.ut_uid, un_gid := utype.ut_gid, un_mode := utype.ut_mode,
              un_fops := utype.ut_fops, un_mapping := false })) 1 := by
    refine ⟨fun _ => ⟨_, setSlot_same _ _ _, rfl, rfl, ?_, ?_⟩, fun h => by omega⟩
    · simp [setSlot_klog, call_klog, List.count_append]
    · simp [setSlot_klog, call_klog, List.count_append]
  have hfin := refOps_inv xx_units_max m (MKDEV (MAJOR inst.i_devno) m) _ _ hm
    (MINOR_MKDEV _ m hm2) ops _ 1 hinv0 (by omega) hv
  obtain ⟨hpos, hzero⟩ := hfin
  have hc0 : (((inst.setSlot m Slot.busy).call
          (KCall.device_create (MKDEV (MAJOR inst.i_devno) m) true)).setSlot m
          (Slot.live
            { un_name := fmt m, un_devno := MKDEV (MAJOR inst.i_devno) m, un_refcnt := 1,
              un_uid := utype.ut_uid, un_gid := utype.ut_gid, un_mode := utype.ut_mode,
              un_fops := utype.ut_fops, un_mapping := false })).klog.count
        (KCall.device_destroy (MKDEV (MAJOR inst.i_devno) m))
      = inst.klog.count (KCall.device_destroy (MKDEV (MAJOR inst.i_devno) m)) := by
    simp [setSlot_klog, call_klog, List.count_append]
  have hk0 : (((inst.setSlot m Slot.busy).call
          (KCall.device_create (MKDEV (MAJOR inst.i_devno) m) true)).setSlot m
          (Slot.live
            { un_name := fmt m, un_devno := MKDEV (MAJOR inst.i_devno) m, un_refcnt := 1,
              un_uid := utype.ut_uid, un_gid := utype.ut_gid, un_mode := utype.ut_mode,
              un_fops := utype.ut_fops, un_mapping := false })).klog.count
        (KCall.kfree_unit (MKDEV (MAJOR inst.i_devno) m))
      = inst.klog.count (KCall.kfree_unit (MKDEV (MAJOR inst.i_devno) m)) := by
    simp [setSlot_klog, call_klog, List.count_append]
  refine ⟨trivial, ⟨_, setSlot_same _ _ _, rfl⟩, ?_, ?_⟩
  · intro h
    obtain ⟨u, hu, hr, _, hc, _⟩ := hpos h
    refine ⟨u, hu, hr, by rw [hr]; exact_mod_cast h, ?_⟩
    rw [hc, hc0]
  · intro h
    obtain ⟨he, hc, hk⟩ := hzero h
    exact ⟨he, by rw [hc, hc0], by rw [hk, hk0]⟩


theorem xx_unit_refcount_lifecycle_witness :
    (xx_unit_create xx_utype_rw (fun _ => "xx1") 1 true true inst_sample).2 = UnitPtr.unit 1 ∧
    (∃ u, ([RefOp.lookup, RefOp.get, RefOp.put].foldl (refStep 4 1)
          (xx_unit_create xx_utype_rw (fun _ => "xx1") 1 true true inst_sample).1).i_unit 1
        = Slot.live u ∧
      u.un_refcnt = (heldAfter 1 [RefOp.lookup, RefOp.get, RefOp.put] : Int) ∧
      0 < u.un_refcnt) ∧
    ([RefOp.lookup, RefOp.get, RefOp.put, RefOp.put, RefOp.put, RefOp.lookup].foldl
        (refStep 4 1) (xx_unit_create xx_utype_rw (fun _ => "xx1") 1 true true inst_sample).1).i_unit 1
      = Slot.empty ∧
    ([RefOp.lookup, RefOp.get, RefOp.put, RefOp.put, RefOp.put, RefOp.lookup].foldl
        (refStep 4 1) (xx_unit_create xx_utype_rw (fun _ => "xx1") 1 true true inst_sample).1).klog.count
        (KCall.device_destroy (MKDEV (MAJOR inst_sample.i_devno) 1))
      = (xx_unit_create xx_utype_rw (fun _ => "xx1") 1 true true inst_sample).1.klog.count
        (KCall.device_destroy (MKDEV (MAJOR inst_sample.i_devno) 1)) + 1 := by
  have h1 := xx_unit_refcount_lifecycle 4 1 (by decide) (by decide) xx_utype_rw (fun _ => "xx1")
    inst_sample rfl [RefOp.lookup, RefOp.get, RefOp.put] (by decide) (by decide)
  have h2 := xx_unit_refcount_lifecycle 4 1 (by decide) (by decide) xx_utype_rw (fun _ => "xx1")
    inst_sample rfl [RefOp.lookup, RefOp.get, RefOp.put, RefOp.put, RefOp.put, RefOp.lookup]
    (by decide) (by decide)
  obtain ⟨u, hu1, hu2, hu3, _⟩ := h1.2.2.1 (by decide)
  obtain ⟨he, hc, _⟩ := h2.2.2.2 (by decide)
  exact ⟨h1.1, ⟨u, hu1, hu2, hu3⟩, he, hc⟩

/-- C10 (create on an occupied entry): `xx_unit_create` on an entry that is not
`NULL` (a unit or the placeholder) returns `NULL` and leaves the instance as it
was: every entry, every unit's count, and the log of device-model calls (no
`device_create`); in particular a create at a minor right after a create there
that returned a unit returns `NULL` and changes nothing. -/
theorem xx_unit_create_occupied (utype utype' : xx_utype) (fmt fmt' : Nat → String) (minor : Nat)
    (kz dc kz' dc' : Bool) (inst : xx_inst) :
    (inst.i_unit minor ≠ Slot.empty →
      xx_unit_create utype fmt minor kz dc inst = (inst, UnitPtr.null)) ∧
    ((xx_unit_create utype fmt minor kz dc inst).2 ≠ UnitPtr.null →
      xx_unit_create utype' fmt' minor kz' dc' (xx_unit_create utype fmt minor kz dc inst).1
        = ((xx_unit_create utype fmt minor kz dc inst).1, UnitPtr.null)) := by
  have h1 : ∀ (ut : xx_utype) (f : Nat → String) (a b : Bool) (i : xx_inst),
      i.i_unit minor ≠ Slot.empty → xx_unit_create ut f minor a b i = (i, UnitPtr.null) := by
    intro ut f a b i h
    unfold xx_unit_create
    cases hs : i.i_unit minor with
    | empty => exact absurd hs h
    | busy => rfl
    | live u => rfl
  refine ⟨h1 utype fmt kz dc inst, fun hne => h1 utype' fmt' kz' dc' _ ?_⟩
  unfold xx_unit_create at hne ⊢
  cases hs : inst.i_unit minor with
  | empty =>
    rw [hs] at hne
    simp only [] at hne ⊢
    cases kz with
    | false => simp at hne
    | true =>
      cases dc with
      | false => simp at hne
      | true => simp [xx_inst.setSlot]
  | busy => simp [hs]
  | live u => simp [hs]

theorem xx_unit_create_occupied_witness :
    xx_unit_create xx_utype_rw (fun _ => "xx2") 2 true true (inst_sample.setSlot 2 Slot.busy)
      = (inst_sample.setSlot 2 Slot.busy, UnitPtr.null) ∧
    xx_unit_create xx_utype_ctl (fun _ => "xxctl") 2 true true
        (xx_unit_create xx_utype_rw (fun _ => "xx2") 2 true true inst_sample).1
      = ((xx_unit_create xx_utype_rw (fun _ => "xx2") 2 true true inst_sample).1, UnitPtr.null) :=
  ⟨(xx_unit_create_occupied xx_utype_rw xx_utype_ctl (fun _ => "xx2") (fun _ => "xxctl") 2
      true true true true (inst_sample.setSlot 2 Slot.busy)).1 (by decide),
    (xx_unit_create_occupied xx_utype_rw xx_utype_ctl (fun _ => "xx2") (fun _ => "xxctl") 2
      true true true true inst_sample).2 (by decide)⟩

/-- C5 (mandatory control unit), evaluated on the code: when the region, the
class and the cdev are acquired and `device_create` fails for the control unit
at minor 0, `xx_init` returns 0 and makes no tear-down call: the log ends with
the freeing of the control unit object, the class and region stay held. -/
theorem xx_init_ctl_failure_returns_zero :
    ((xx_init 4 { env_ok with device_create_ok := fun i => decide (i ≠ 0) }).1,
      (xx_init 4 { env_ok with device_create_ok := fun i => decide (i ≠ 0) }).2.map
        (fun inst => (inst.klog, inst.i_class, inst.i_devno)))
      = (0, some ([KCall.alloc_chrdev_region true, KCall.class_create true, KCall.cdev_add true,
          KCall.device_create (MKDEV 240 0) false, KCall.kfree_unit (MKDEV 240 0)],
          ClassPtr.valid, MKDEV 240 0)) := by
  decide

/-- C6 (exact unwinding), evaluated on the code: when the region is acquired and
`class_create` fails with `ERR_PTR(-ENOMEM)`, the tear-down run by `xx_init`
calls `cdev_del` although `cdev_add` was never called, and calls
`class_destroy` on the error pointer. -/
theorem xx_init_class_failure_calls_cdev_del :
    ((xx_init 4 { env_ok with class_err := some (-ENOMEM) }).1,
      (xx_init 4 { env_ok with class_err := some (-ENOMEM) }).2.map (fun inst => inst.klog))
      = (-ENOMEM, some [KCall.alloc_chrdev_region true, KCall.class_create false, KCall.cdev_del,
          KCall.class_destroy false, KCall.unregister_chrdev_region, KCall.kfree_inst]) := by
  decide


/-! ## Lookup, seek and commands -/

theorem s32_succ (c : Int) (h1 : -2147483648 ≤ c) (h2 : c < 2147483647) : s32 (c + 1) = c + 1 := by
  unfold s32
  omega

theorem s32_pred (c : Int) (h1 : -2147483648 < c) (h2 : c ≤ 2147483647) : s32 (c - 1) = c - 1 := by
  unfold s32
  omega

/-- C11 (lookup): `xx_unit_get_by_minor(m)` returns the unit and adds exactly one
to its count (the count not being `INT_MAX`), leaving every other entry and the
call log alone, when `m` is below `xx_units_max` and entry `m` is a unit; in
every other case (entry `NULL`, entry the placeholder, or `m` out of range) it
returns `NULL` and leaves the instance as it was, and `xx_open` on that minor
returns `-ENODEV` with instance and file unchanged.  So a unit is returned if
and only if `m` is in range and its entry is a unit. -/
theorem xx_unit_get_by_minor_lookup (xx_units_max : Nat) (inst : xx_inst) (m : Nat) :
    (∀ u, m < xx_units_max → inst.i_unit m = Slot.live u →
      -2147483648 ≤ u.un_refcnt → u.un_refcnt < 2147483647 →
      (xx_unit_get_by_minor xx_units_max inst m).2 = UnitPtr.unit m ∧
      (xx_unit_get_by_minor xx_units_max inst m).1.i_unit m
        = Slot.live { u with un_refcnt := u.un_refcnt + 1 } ∧
      (∀ i, i ≠ m → (xx_unit_get_by_minor xx_units_max inst m).1.i_unit i = inst.i_unit i) ∧
      (xx_unit_get_by_minor xx_units_max inst m).1.klog = inst.klog) ∧
    ((¬ m < xx_units_max ∨ inst.i_unit m = Slot.empty ∨ inst.i_unit m = Slot.busy) →
      xx_unit_get_by_minor xx_units_max inst m = (inst, UnitPtr.null) ∧
      ∀ fp : File, fp.f_minor = m → xx_open xx_units_max inst fp = (-ENODEV, inst, fp)) ∧
    ((xx_unit_get_by_minor xx_units_max inst m).2 ≠ UnitPtr.null ↔
      (m < xx_units_max ∧ ∃ u, inst.i_unit m = Slot.live u)) := by
  refine ⟨?_, ?_, ?_⟩
  · intro u hm hu h1 h2
    have e : xx_unit_get_by_minor xx_units_max inst m
        = (inst.setSlot m (Slot.live { u with un_refcnt := u.un_refcnt + 1 }), UnitPtr.unit m) := by
      simp only [xx_unit_get_by_minor, if_pos hm, hu, s32_succ _ h1 h2]
    rw [e]
    refine ⟨rfl, setSlot_same _ _ _, ?_, rfl⟩
    intro i hi
    simp [xx_inst.setSlot, hi]
  · intro h
    have hnull : xx_unit_get_by_minor xx_units_max inst m = (inst, UnitPtr.null) := by
      unfold xx_unit_get_by_minor
      rcases h with h | h | h
      · rw [if_neg h]
      · rw [h]; simp
      · rw [h]; simp
    refine ⟨hnull, ?_⟩
    intro fp hfp
    unfold xx_open
    rw [hfp, hnull]
  · unfold xx_unit_get_by_minor
    by_cases hm : m < xx_units_max
    · rw [if_pos hm]
      cases hs : inst.i_unit m with
      | empty => simp [hm]
      | busy => simp [hm]
      | live u => simp [hm]
    · rw [if_neg hm]
      simp [hm]

theorem xx_unit_get_by_minor_lookup_witness :
    ((xx_unit_get_by_minor 4 (xx_unit_create xx_utype_rw (fun _ => "xx1") 1 true true
        inst_sample).1 1).2 = UnitPtr.unit 1 ∧
      (xx_unit_get_by_minor 4 (xx_unit_create xx_utype_rw (fun _ => "xx1") 1 true true
        inst_sample).1 1).1.i_unit 1
        = Slot.live
          { un_name := "xx1", un_devno := MKDEV (MAJOR inst_sample.i_devno) 1, un_refcnt := 1 + 1,
            un_uid := 0, un_gid := 6, un_mode := 0o660, un_fops := Fops.xx_fops_rw,
            un_mapping := false }) ∧
    (xx_unit_get_by_minor 4 inst_sample 2 = (inst_sample, UnitPtr.null) ∧
      xx_open 4 inst_sample
          { f_minor := 2, private_data := UnitPtr.null, f_op := none, f_pos := 0,
            nonseekable := false }
        = (-ENODEV, inst_sample,
          { f_minor := 2, private_data := UnitPtr.null, f_op := none, f_pos := 0,
            nonseekable := false })) := by
  have h1 := (xx_unit_get_by_minor_lookup 4 (xx_unit_create xx_utype_rw (fun _ => "xx1") 1 true
    true inst_sample).1 1).1
    { un_name := "xx1", un_devno := MKDEV (MAJOR inst_sample.i_devno) 1, un_refcnt := 1,
      un_uid := 0, un_gid := 6, un_mode := 0o660, un_fops := Fops.xx_fops_rw,
      un_mapping := false }
    (by decide) (by decide) (by decide) (by decide)
  have h2 := (xx_unit_get_by_minor_lookup 4 inst_sample 2).2.1 (Or.inr (Or.inl rfl))
  exact ⟨⟨h1.1, h1.2.1⟩, h2.1, h2.2 _ rfl⟩


/-- `xx_llseek` in terms of the position the seek asks for. -/
theorem xx_llseek_eq (fp : File) (t whence : Int) :
    xx_llseek fp t whence =
      (match seek_target fp.f_pos t whence with
        | some c => (c, if 0 ≤ c then { fp with f_pos := c } else fp)
        | none => (-EINVAL, fp)) := by
  unfold xx_llseek seek_target
  by_cases h0 : whence = SEEK_SET
  · simp only [if_pos h0]
  · by_cases h1 : whence = SEEK_CUR
    · simp only [if_neg h0, if_pos h1]
    · by_cases h2 : whence = SEEK_END
      · simp only [if_neg h0, if_neg h1, if_pos h2]
      · simp only [if_neg h0, if_neg h1, if_neg h2]
        rw [if_neg (by simp [EINVAL])]

/-- C12 (rejected seek leaves the position alone): when the directive is none of
`SEEK_SET`, `SEEK_CUR`, `SEEK_END`, or the position computed for it is negative,
`xx_llseek` returns a negative value and the file, its position included, is as
before; otherwise the position becomes the computed value and that value is
returned.  For `SEEK_CUR` the computed value is the sum of target and position
whenever that sum is an `loff_t`. -/
theorem xx_llseek_outcome (fp : File) (t whence : Int) :
    ((seek_target fp.f_pos t whence = none ∨
        ∃ c, seek_target fp.f_pos t whence = some c ∧ c < 0) →
      (xx_llseek fp t whence).1 < 0 ∧ (xx_llseek fp t whence).2 = fp) ∧
    (∀ c, seek_target fp.f_pos t whence = some c → 0 ≤ c →
      xx_llseek fp t whence = (c, { fp with f_pos := c })) ∧
    (whence = SEEK_CUR → -9223372036854775808 ≤ t + fp.f_pos →
      t + fp.f_pos ≤ 9223372036854775807 →
      seek_target fp.f_pos t whence = some (t + fp.f_pos)) := by
  refine ⟨?_, ?_, ?_⟩
  · intro h
    rw [xx_llseek_eq]
    rcases h with h | ⟨c, hc, hneg⟩
    · rw [h]
      exact ⟨by simp [EINVAL], rfl⟩
    · rw [hc]
      exact ⟨hneg, by simp only []; rw [if_neg (by omega)]⟩
  · intro c hc hpos
    rw [xx_llseek_eq, hc]
    simp only []
    rw [if_pos hpos]
  · intro hw h1 h2
    unfold seek_target
    have hne : ¬ (whence = SEEK_SET) := by rw [hw]; decide
    rw [if_neg hne, if_pos hw]
    congr 1
    unfold s64
    omega

theorem xx_llseek_outcome_witness :
    ((xx_llseek { file_sample 1 with f_pos := 3 } (-10) SEEK_CUR).1 < 0 ∧
      (xx_llseek { file_sample 1 with f_pos := 3 } (-10) SEEK_CUR).2
        = { file_sample 1 with f_pos := 3 }) ∧
    ((xx_llseek { file_sample 1 with f_pos := 3 } 7 9).1 < 0 ∧
      (xx_llseek { file_sample 1 with f_pos := 3 } 7 9).2 = { file_sample 1 with f_pos := 3 }) ∧
    xx_llseek { file_sample 1 with f_pos := 3 } 7 SEEK_CUR
      = (10, { { file_sample 1 with f_pos := 3 } with f_pos := 10 }) ∧
    seek_target 3 7 SEEK_CUR = some (7 + 3) :=
  ⟨(xx_llseek_outcome { file_sample 1 with f_pos := 3 } (-10) SEEK_CUR).1
      (Or.inr ⟨-7, by decide, by decide⟩),
    (xx_llseek_outcome { file_sample 1 with f_pos := 3 } 7 9).1 (Or.inl (by decide)),
    (xx_llseek_outcome { file_sample 1 with f_pos := 3 } 7 SEEK_CUR).2.1 10 (by decide)
      (by decide),
    (xx_llseek_outcome { file_sample 1 with f_pos := 3 } 7 SEEK_CUR).2.2 rfl (by decide)
      (by decide)⟩

/-- C13 (seek error code), evaluated on the code: a `SEEK_SET` to target -5
returns -5, and a `SEEK_CUR` by -10 from position 3 returns -7; neither is
`-EINVAL`, which only a directive that is none of the three yields. -/
theorem xx_llseek_negative_returns_offset :
    (xx_llseek (file_sample 1) (-5) SEEK_SET).1 = -5 ∧
    (xx_llseek { file_sample 1 with f_pos := 3 } (-10) SEEK_CUR).1 = -7 ∧
    (xx_llseek (file_sample 1) 0 9).1 = -EINVAL ∧
    (-5 : Int) ≠ -EINVAL ∧ (-7 : Int) ≠ -EINVAL := by
  decide

/-- C16 (seek to end): for every file position and target, `xx_llseek` with
`SEEK_END` returns `LONG_MAX`, which is not negative, and sets the position to
it; every `loff_t` value, so every position a write was made at, is at most the
value returned. -/
theorem xx_llseek_end (fp : File) (t : Int) :
    xx_llseek fp t SEEK_END = (LONG_MAX, { fp with f_pos := LONG_MAX }) ∧
    0 ≤ (xx_llseek fp t SEEK_END).1 ∧
    (∀ x : Int, s64 x ≤ (xx_llseek fp t SEEK_END).1) := by
  have e : xx_llseek fp t SEEK_END = (LONG_MAX, { fp with f_pos := LONG_MAX }) := by
    simp [xx_llseek, SEEK_END, SEEK_SET, SEEK_CUR, LONG_MAX]
  rw [e]
  refine ⟨rfl, by simp [LONG_MAX], ?_⟩
  intro x
  simp only [s64, LONG_MAX]
  omega

/-- C17 (administrative commands): both operation tables, `xx_fops_ctl` of the
control node and `xx_fops_rw` of the data nodes, name `xx_ioctl` as their
command handler, and for every command code and argument the call returns
`-ENOTTY` and leaves the instance and the file as they were. -/
theorem xx_ioctl_unsupported (ops : Fops) (inst : xx_inst) (fp : File) (cmd arg : Nat) :
    (Fops.table ops).f_unlocked_ioctl = some Handler.xx_ioctl ∧
    vfs_ioctl (Fops.table ops) inst fp cmd arg = (-ENOTTY, inst, fp) ∧
    xx_ioctl inst fp cmd arg = (-ENOTTY, inst, fp) := by
  cases ops <;> exact ⟨rfl, rfl, rfl⟩


/-! ## Open handles and mappings -/

theorem xx_unit_get_live (inst : xx_inst) (m : Nat) (u : xx_unit)
    (h : inst.i_unit m = Slot.live u)
    (h1 : -2147483648 ≤ u.un_refcnt) (h2 : u.un_refcnt < 2147483647) :
    xx_unit_get inst (UnitPtr.unit m)
      = inst.setSlot m (Slot.live { u with un_refcnt := u.un_refcnt + 1 }) := by
  simp only [xx_unit_get, h, s32_succ _ h1 h2]

/-- A release that does not bring the count to zero only decrements it. -/
theorem xx_unit_put_live (inst : xx_inst) (m : Nat) (u : xx_unit)
    (h : inst.i_unit m = Slot.live u)
    (h1 : -2147483648 < u.un_refcnt) (h2 : u.un_refcnt ≤ 2147483647) (h3 : u.un_refcnt ≠ 1) :
    xx_unit_put inst (UnitPtr.unit m)
      = inst.setSlot m (Slot.live { u with un_refcnt := u.un_refcnt - 1 }) := by
  simp only [xx_unit_put, h, s32_pred _ h1 h2]
  rw [if_neg (by omega)]

/-- `xx_open` of a fresh file on a minor in range whose entry is a unit. -/
theorem xx_open_live (xx_units_max : Nat) (inst : xx_inst) (fp : File) (u : xx_unit)
    (hm : fp.f_minor < xx_units_max) (hu : inst.i_unit fp.f_minor = Slot.live u)
    (hp : fp.private_data = UnitPtr.null)
    (h1 : -2147483648 ≤ u.un_refcnt) (h2 : u.un_refcnt < 2147483647) :
    xx_open xx_units_max inst fp =
      (0, (inst.setSlot fp.f_minor (Slot.live { u with un_refcnt := u.un_refcnt + 1 })).setSlot
            fp.f_minor (Slot.live { u with un_refcnt := u.un_refcnt + 1, un_mapping := true }),
        { fp with
          nonseekable := if u.un_fops = Fops.xx_fops_ctl then true else fp.nonseekable,
          f_op := some u.un_fops,
          private_data := UnitPtr.unit fp.f_minor }) := by
  simp only [xx_open, xx_unit_get_by_minor, if_pos hm, hu, s32_succ _ h1 h2, hp, if_true,
    setSlot_same]

/-- C14 (a mapping holds one reference): for a unit at minor `m` with count
`c ≥ 1`, opening a fresh file on `m` and mapping it both return 0 and bring the
count to `c + 2`; releasing the file while the mapping exists leaves the entry
the unit with count `c + 1` and logs no device-model call (no destruction, no
truncation of its pages); closing the mapping then brings the count back to `c`,
again with nothing logged.  Mapping and closing the mapping of an open file
leave the count as it was. -/
theorem xx_mapping_holds_reference (xx_units_max : Nat) (inst : xx_inst) (fp : File)
    (vma : Vma) (u : xx_unit)
    (hm : fp.f_minor < xx_units_max) (hu : inst.i_unit fp.f_minor = Slot.live u)
    (hp : fp.private_data = UnitPtr.null)
    (h1 : 1 ≤ u.un_refcnt) (h2 : u.un_refcnt + 2 ≤ 2147483647) :
    (∃ (i1 i2 : xx_inst) (fp1 : File) (vma1 : Vma),
      xx_open xx_units_max inst fp = (0, i1, fp1) ∧
      xx_mmap i1 fp1 vma = (0, i2, vma1) ∧
      i2.i_unit fp.f_minor
        = Slot.live { u with un_refcnt := u.un_refcnt + 2, un_mapping := true } ∧
      (xx_release i2 fp1).1 = 0 ∧
      (xx_release i2 fp1).2.i_unit fp.f_minor
        = Slot.live { u with un_refcnt := u.un_refcnt + 1, un_mapping := true } ∧
      (xx_release i2 fp1).2.klog = inst.klog ∧
      (xx_vm_close (xx_release i2 fp1).2 vma1).i_unit fp.f_minor
        = Slot.live { u with un_refcnt := u.un_refcnt, un_mapping := true } ∧
      (xx_vm_close (xx_release i2 fp1).2 vma1).klog = inst.klog) ∧
    (∀ fp2 : File, fp2.private_data = UnitPtr.unit fp.f_minor →
      (xx_vm_close (xx_mmap inst fp2 vma).2.1 (xx_mmap inst fp2 vma).2.2).i_unit fp.f_minor
        = Slot.live u ∧
      (xx_vm_close (xx_mmap inst fp2 vma).2.1 (xx_mmap inst fp2 vma).2.2).klog = inst.klog) := by
  constructor
  · refine ⟨_, _, _, _, xx_open_live xx_units_max inst fp u hm hu hp (by omega) (by omega),
      rfl, ?_⟩
    simp only [xx_vm_open, xx_release, xx_vm_close]
    rw [xx_unit_get_live _ fp.f_minor _ (setSlot_same _ _ _) (by simp only []; omega)
      (by simp only []; omega)]
    have e2 : u.un_refcnt + 1 + 1 = u.un_refcnt + 2 := by omega
    simp only [e2]
    refine ⟨setSlot_same _ _ _, trivial, ?_⟩
    rw [xx_unit_put_live _ fp.f_minor _ (setSlot_same _ _ _) (by simp only []; omega)
      (by simp only []; omega) (by simp only []; omega)]
    have e3 : u.un_refcnt + 2 - 1 = u.un_refcnt + 1 := by omega
    simp only [e3]
    refine ⟨setSlot_same _ _ _, rfl, ?_⟩
    rw [xx_unit_put_live _ fp.f_minor _ (setSlot_same _ _ _) (by simp only []; omega)
      (by simp only []; omega) (by simp only []; omega)]
    have e4 : u.un_refcnt + 1 - 1 = u.un_refcnt := by omega
    simp only [e4]
    exact ⟨setSlot_same _ _ _, rfl⟩
  · intro fp2 hfp2
    simp only [xx_mmap, xx_vm_open, xx_vm_close, hfp2]
    rw [xx_unit_get_live _ fp.f_minor u hu (by omega) (by omega)]
    rw [xx_unit_put_live _ fp.f_minor _ (setSlot_same _ _ _) (by simp only []; omega)
      (by simp only []; omega) (by simp only []; omega)]
    have e4 : u.un_refcnt + 1 - 1 = u.un_refcnt := by omega
    simp only [e4]
    exact ⟨setSlot_same _ _ _, rfl⟩


theorem xx_mapping_holds_reference_witness :
    ∃ (i1 i2 : xx_inst) (fp1 : File) (vma1 : Vma),
      xx_open 4 inst_unit1 (file_sample 1) = (0, i1, fp1) ∧
      xx_mmap i1 fp1 vma_sample = (0, i2, vma1) ∧
      (∃ u2, i2.i_unit 1 = Slot.live u2 ∧ u2.un_refcnt = 1 + 2) ∧
      (∃ u3, (xx_release i2 fp1).2.i_unit 1 = Slot.live u3 ∧ u3.un_refcnt = 1 + 1) ∧
      (xx_release i2 fp1).2.klog = inst_unit1.klog ∧
      (∃ u4, (xx_vm_close (xx_release i2 fp1).2 vma1).i_unit 1 = Slot.live u4 ∧
        u4.un_refcnt = 1) := by
  obtain ⟨⟨i1, i2, fp1, vma1, h1, h2, h3, _, h5, h6, h7, _⟩, _⟩ :=
    xx_mapping_holds_reference 4 inst_unit1 (file_sample 1) vma_sample
      { un_name := "xx1", un_devno := MKDEV (MAJOR inst_sample.i_devno) 1, un_refcnt := 1,
        un_uid := 0, un_gid := 6, un_mode := 0o660, un_fops := Fops.xx_fops_rw,
        un_mapping := false }
      (by decide) (by decide) (by decide) (by decide) (by decide)
  exact ⟨i1, i2, fp1, vma1, h1, h2, ⟨_, h3, rfl⟩, ⟨_, h5, rfl⟩, h6, ⟨_, h7, rfl⟩⟩

/-! ## Outcomes of a map fault -/

/-- A fault on a page that is absent (the allocation succeeding) or resident but
not up to date: the page handed out is cleared over the whole page, marked up
to date and installed at the index; the fault is major. -/
theorem xx_vm_fault_cold (shift : Nat) (alloc : Nat → Option (Nat → Byte))
    (m m1 : AddressSpace) (pgoff : Nat) (pg : Page)
    (h : find_or_create_page alloc m pgoff = some (pg, m1)) (hu : pg.uptodate = false) :
    xx_vm_fault shift alloc m pgoff =
      { rc := VM_FAULT_MAJOR,
        page := some { pg with
          data := fun i => if i < PAGE_CACHE_SIZE shift then 0 else pg.data i, uptodate := true },
        mapping := m1.set pgoff { pg with
          data := fun i => if i < PAGE_CACHE_SIZE shift then 0 else pg.data i,
          uptodate := true } } := by
  simp [xx_vm_fault, h, hu]

/-- The page a fault hands out is up to date. -/
theorem xx_vm_fault_page_uptodate (shift : Nat) (alloc : Nat → Option (Nat → Byte))
    (m : AddressSpace) (pgoff : Nat) (pg : Page)
    (h : (xx_vm_fault shift alloc m pgoff).page = some pg) : pg.uptodate = true := by
  unfold xx_vm_fault at h
  cases hfc : find_or_create_page alloc m pgoff with
  | none => rw [hfc] at h; simp at h
  | some pr =>
    obtain ⟨page, m1⟩ := pr
    rw [hfc] at h
    simp only [] at h
    by_cases hu : (!page.uptodate) = true
    · rw [if_pos hu] at h
      simp only [Option.some.injEq] at h
      rw [← h]
    · rw [if_neg hu] at h
      simp only [Option.some.injEq] at h
      rw [← h]
      simpa using hu

/-- C15 (map-fault outcomes).  A fault at index `i` on an absent page for which
the allocation succeeds, or on a resident page that is not up to date, is major
and hands out a page that is zero over the whole page, up to date, and resident
at `i` afterwards, every other index being as before.  A fault on a resident
up-to-date page is minor and hands out that page, the store being unchanged; so
a second fault at the index of a fault that handed out a page is minor and
hands out the same page.  A fault on an absent page for which the allocation
fails reports `VM_FAULT_OOM` and leaves the store unchanged. -/
theorem xx_vm_fault_outcomes (shift : Nat) (hs : shift < 64)
    (alloc : Nat → Option (Nat → Byte)) (mapping : AddressSpace) (i : Nat) :
    ((mapping i = none ∧ alloc i ≠ none ∨ ∃ pg0, mapping i = some pg0 ∧ pg0.uptodate = false) →
      (xx_vm_fault shift alloc mapping i).rc = VM_FAULT_MAJOR ∧
      ∃ pg, (xx_vm_fault shift alloc mapping i).page = some pg ∧
        (∀ j, j < 2 ^ shift → pg.data j = 0) ∧ pg.uptodate = true ∧
        (xx_vm_fault shift alloc mapping i).mapping i = some pg ∧
        ∀ k, k ≠ i → (xx_vm_fault shift alloc mapping i).mapping k = mapping k) ∧
    (∀ pg0, mapping i = some pg0 → pg0.uptodate = true →
      xx_vm_fault shift alloc mapping i = { rc := 0, page := some pg0, mapping := mapping }) ∧
    (∀ pg, (xx_vm_fault shift alloc mapping i).page = some pg →
      ∀ alloc2 : Nat → Option (Nat → Byte),
        xx_vm_fault shift alloc2 (xx_vm_fault shift alloc mapping i).mapping i
          = { rc := 0, page := some pg, mapping := (xx_vm_fault shift alloc mapping i).mapping }) ∧
    (mapping i = none → alloc i = none →
      xx_vm_fault shift alloc mapping i
        = { rc := VM_FAULT_OOM, page := none, mapping := mapping }) := by
  refine ⟨?_, ?_, ?_, ?_⟩
  · intro h
    have hex : ∃ pg m1, find_or_create_page alloc mapping i = some (pg, m1) ∧
        pg.uptodate = false := by
      rcases h with ⟨hn, ha⟩ | ⟨pg0, hp, hu⟩
      · cases hal : alloc i with
        | none => exact absurd hal ha
        | some frame =>
          refine ⟨{ data := frame, uptodate := false, dirty := false, reserved := false },
            mapping.set i { data := frame, uptodate := false, dirty := false, reserved := false },
            ?_, rfl⟩
          simp only [find_or_create_page, hn, hal]
      · exact ⟨pg0, mapping, by simp only [find_or_create_page, hp], hu⟩
    obtain ⟨pg, m1, hfc, hu⟩ := hex
    obtain ⟨_, hm1f⟩ := find_or_create_page_some alloc mapping m1 i pg hfc
    rw [xx_vm_fault_cold shift alloc mapping m1 i pg hfc hu]
    refine ⟨rfl, _, rfl, ?_, rfl, ?_, ?_⟩
    · intro j hj
      simp only [PAGE_CACHE_SIZE_eq shift hs, if_pos hj]
    · simp only [AddressSpace.set, if_true]
    · intro k hk
      simp only [AddressSpace.set, if_neg hk]
      exact hm1f k hk
  · intro pg0 hp hu
    exact xx_vm_fault_uptodate shift alloc mapping i pg0 hp hu
  · intro pg hpg alloc2
    exact xx_vm_fault_uptodate shift alloc2 _ i pg
      (xx_vm_fault_page shift alloc mapping i pg hpg)
      (xx_vm_fault_page_uptodate shift alloc mapping i pg hpg)
  · intro hn ha
    simp [xx_vm_fault, find_or_create_page, hn, ha]

theorem xx_vm_fault_outcomes_witness :
    ((xx_vm_fault 12 (fun _ => some (fun _ => 7)) mapping_sample 0).rc = VM_FAULT_MAJOR ∧
      ∃ pg, (xx_vm_fault 12 (fun _ => some (fun _ => 7)) mapping_sample 0).page = some pg ∧
        (∀ j, j < 2 ^ 12 → pg.data j = 0) ∧ pg.uptodate = true ∧
        (xx_vm_fault 12 (fun _ => some (fun _ => 7)) mapping_sample 0).mapping 0 = some pg ∧
        ∀ k, k ≠ 0 →
          (xx_vm_fault 12 (fun _ => some (fun _ => 7)) mapping_sample 0).mapping k
            = mapping_sample k) ∧
    xx_vm_fault 12 (fun _ => none) mapping_sample 3
      = { rc := 0,
          page := some { data := fun _ => 1, uptodate := true, dirty := true, reserved := false },
          mapping := mapping_sample } ∧
    xx_vm_fault 12 (fun _ => none) mapping_sample 0
      = { rc := VM_FAULT_OOM, page := none, mapping := mapping_sample } :=
  ⟨(xx_vm_fault_outcomes 12 (by decide) (fun _ => some (fun _ => 7)) mapping_sample 0).1
      (Or.inl ⟨rfl, by simp⟩),
    (xx_vm_fault_outcomes 12 (by decide) (fun _ => none) mapping_sample 3).2.1 _ rfl rfl,
    (xx_vm_fault_outcomes 12 (by decide) (fun _ => none) mapping_sample 0).2.2.2 rfl rfl⟩


/-! ## The frame of a write -/

/-- Page `pgi` overlaps `[p, p + n)` exactly when its index lies between the
index of `p` and the index of `p + n - 1`. -/
theorem overlap_iff_index (P p n pgi : Nat) (hP : 0 < P) (hn : 0 < n) :
    (¬ (pgi * P + P ≤ p ∨ p + n ≤ pgi * P)) ↔ (p / P ≤ pgi ∧ pgi ≤ (p + n - 1) / P) := by
  have e1 : p / P ≤ pgi ↔ p < pgi * P + P := by
    rw [← Nat.lt_succ_iff, Nat.div_lt_iff_lt_mul hP, Nat.succ_mul]
  have e2 : pgi ≤ (p + n - 1) / P ↔ pgi * P ≤ p + n - 1 := Nat.le_div_iff_mul_le hP
  rw [e1, e2]
  omega

/-- A page that overlaps `[p, p + n)` holds a position `p + j` of the range. -/
theorem overlap_position (P p n pgi : Nat) (hP : 0 < P) (hn : 0 < n)
    (h : ¬ (pgi * P + P ≤ p ∨ p + n ≤ pgi * P)) : ∃ j, j < n ∧ (p + j) / P = pgi := by
  by_cases hle : pgi * P ≤ p
  · refine ⟨0, hn, ?_⟩
    have := (div_mod_in_page P pgi (p - pgi * P) (by omega)).1
    have e : pgi * P + (p - pgi * P) = p + 0 := by omega
    rw [e] at this
    exact this
  · refine ⟨pgi * P - p, by omega, ?_⟩
    have := (div_mod_in_page P pgi 0 hP).1
    have e : pgi * P + 0 = p + (pgi * P - p) := by omega
    rw [e] at this
    exact this

/-- C18 (write frame): after a write of `b` at `p` that returns `len(b)`, every
page resident before is resident after and holds the same byte wherever the
byte lies outside `[p, p + len(b))`; every page whose index does not overlap the
range is exactly as before (not created, not removed, not modified); and, `b`
being non-empty, the pages created are exactly the pages absent before whose
index lies between `p / PAGE` and `(p + len(b) - 1) / PAGE`. -/
theorem xx_write_frame (shift : Nat) (hs : shift < 64) (alloc : Nat → Option (Nat → Byte))
    (cp : Nat → Nat → Nat) (mapping : AddressSpace) (b : List Byte) (p : Nat)
    (hp : p + b.length < 2 ^ 63)
    (hw : (xx_write shift alloc cp mapping (fun i => b.getD i 0) b.length (p : Int)).map
      IOResult.ret = some (b.length : Int)) :
    ∃ w : IOResult,
      xx_write shift alloc cp mapping (fun i => b.getD i 0) b.length (p : Int) = some w ∧
      (∀ pgi pg0, mapping pgi = some pg0 →
        ∃ pg, w.mapping pgi = some pg ∧
          ∀ i, ¬ (i < 2 ^ shift ∧ p ≤ pgi * 2 ^ shift + i ∧ pgi * 2 ^ shift + i < p + b.length) →
            pg.data i = pg0.data i) ∧
      (∀ pgi, (pgi * 2 ^ shift + 2 ^ shift ≤ p ∨ p + b.length ≤ pgi * 2 ^ shift) →
        w.mapping pgi = mapping pgi) ∧
      (b.length = 0 → w.mapping = mapping) ∧
      (0 < b.length → ∀ pgi,
        (mapping pgi = none ∧ w.mapping pgi ≠ none) ↔
          (mapping pgi = none ∧ p / 2 ^ shift ≤ pgi ∧ pgi ≤ (p + b.length - 1) / 2 ^ shift)) := by
  have hP : 0 < 2 ^ shift := Nat.two_pow_pos shift
  obtain ⟨w, hrun, _, _, hbytes, hframe, hdata⟩ :=
    xx_write_full shift hs alloc cp mapping (fun i => b.getD i 0) b.length p hp hw
  have hres : ∀ pgi, ¬ (pgi * 2 ^ shift + 2 ^ shift ≤ p ∨ p + b.length ≤ pgi * 2 ^ shift) →
      0 < b.length → w.mapping pgi ≠ none := by
    intro pgi hov hn
    obtain ⟨j, hj, hje⟩ := overlap_position (2 ^ shift) p b.length pgi hP hn hov
    obtain ⟨pg, hpg, _⟩ := hbytes j hj
    rw [hje] at hpg
    rw [hpg]
    simp
  refine ⟨w, hrun, ?_, ?_, ?_, ?_⟩
  · intro pgi pg0 hpg0
    have hsome : ∃ pg, w.mapping pgi = some pg := by
      by_cases hov : b.length = 0 ∨ pgi * 2 ^ shift + 2 ^ shift ≤ p ∨
          p + b.length ≤ pgi * 2 ^ shift
      · exact ⟨pg0, by rw [hframe pgi hov, hpg0]⟩
      · have := hres pgi (fun h => hov (Or.inr h)) (by omega)
        cases hwm : w.mapping pgi with
        | none => exact absurd hwm this
        | some pg => exact ⟨pg, rfl⟩
    obtain ⟨pg, hpg⟩ := hsome
    refine ⟨pg, hpg, ?_⟩
    intro i hi
    rw [hdata pgi pg hpg i hi]
    simp only [frame_data, hpg0]
  · intro pgi hov
    exact hframe pgi (Or.inr hov)
  · intro h0
    funext pgi
    exact hframe pgi (Or.inl h0)
  · intro hn pgi
    rw [← overlap_iff_index (2 ^ shift) p b.length pgi hP hn]
    constructor
    · rintro ⟨hnone, hcre⟩
      refine ⟨hnone, fun hov => hcre ?_⟩
      rw [hframe pgi (Or.inr hov), hnone]
    · rintro ⟨hnone, hov⟩
      exact ⟨hnone, hres pgi hov hn⟩

theorem xx_write_frame_witness :
    ∃ w : IOResult,
      xx_write 12 (fun _ => some (fun _ => 7)) (fun _ _ => 0) mapping_sample
        (fun i => [1, 2, 3].getD i 0) 3 ((4 * 4096 - 2 : Nat) : Int) = some w ∧
      w.mapping 0 = mapping_sample 0 ∧
      (∃ pg, w.mapping 3 = some pg ∧ pg.data 4093 = 1) ∧
      ((mapping_sample 4 = none ∧ w.mapping 4 ≠ none) ↔
        (mapping_sample 4 = none ∧ (4 * 4096 - 2) / 2 ^ 12 ≤ 4 ∧
          4 ≤ (4 * 4096 - 2 + [1, 2, 3].length - 1) / 2 ^ 12)) := by
  obtain ⟨w, h1, h2, h3, _, h5⟩ :=
    xx_write_frame 12 (by decide) (fun _ => some (fun _ => 7)) (fun _ _ => 0) mapping_sample
      [1, 2, 3] (4 * 4096 - 2) (by decide) (by decide)
  obtain ⟨pg, hpg, hd⟩ := h2 3 _ rfl
  exact ⟨w, h1, h3 0 (Or.inl (by decide)), ⟨pg, hpg, hd 4093 (by decide)⟩,
    h5 (by decide) 4⟩


/-! ## Iterations of the read and write loops -/

theorem u64_cast (x : Int) : ((u64 x : Nat) : Int) = x % 18446744073709551616 := by
  unfold u64
  exact Int.toNat_of_nonneg (Int.emod_nonneg _ (by decide))

/-- At every position, negative ones included, `offset` is the position modulo
the page size. -/
theorem xx_offset_eq_emod (shift : Nat) (hs : shift < 64) (loff : Int) :
    ((xx_offset shift loff : Nat) : Int) = loff % ((2 ^ shift : Nat) : Int) := by
  have hPpos : (0 : Int) < ((2 ^ shift : Nat) : Int) := by
    exact_mod_cast Nat.two_pow_pos shift
  have hPlt : ((2 ^ shift : Nat) : Int) < 18446744073709551616 := by
    have : 2 ^ shift < 2 ^ 64 := Nat.pow_lt_pow_right (by decide) hs
    exact_mod_cast this
  unfold xx_offset xx_pgoff
  rw [u64_cast, u64_cast, Nat.shiftLeft_eq, Int.shiftRight_eq_div_pow]
  push_cast
  rw [u64_cast]
  generalize hP : ((2 : Int) ^ shift) = P at *
  have hP2 : ((2 ^ shift : Nat) : Int) = P := by rw [← hP]; push_cast; rfl
  rw [hP2] at hPpos hPlt
  have h1 := Int.emod_add_ediv (loff / P) 18446744073709551616
  have h2 := Int.emod_add_ediv (loff / P % 18446744073709551616 * P) 18446744073709551616
  have h3 := Int.emod_add_ediv loff P
  have key : loff - loff / P % 18446744073709551616 * P % 18446744073709551616
      = loff % P + 18446744073709551616 *
        ((loff / P / 18446744073709551616) * P
          + loff / P % 18446744073709551616 * P / 18446744073709551616) := by
    linear_combination (-1 : Int) * h3 - h2 - P * h1
  rw [key, Int.add_mul_emod_self_left]
  apply Int.emod_eq_of_lt
  · exact Int.emod_nonneg _ (by omega)
  · have := Int.emod_lt_of_pos loff hPpos
    omega

theorem xx_offset_lt (shift : Nat) (hs : shift < 64) (loff : Int) :
    xx_offset shift loff < 2 ^ shift := by
  have h := xx_offset_eq_emod shift hs loff
  have hPpos : (0 : Int) < ((2 ^ shift : Nat) : Int) := by
    exact_mod_cast Nat.two_pow_pos shift
  have := Int.emod_lt_of_pos loff hPpos
  rw [← h] at this
  exact_mod_cast this

/-- At every position, a sub-range has at least one byte, stays inside its page
and does not exceed the bytes left. -/
theorem xx_length_bounds (shift : Nat) (hs : shift < 64) (loff : Int) (nleft : Nat)
    (hn : 0 < nleft) :
    1 ≤ xx_length shift loff nleft ∧
    xx_length shift loff nleft ≤ 2 ^ shift - xx_offset shift loff ∧
    xx_length shift loff nleft ≤ nleft := by
  have hlt := xx_offset_lt shift hs loff
  have hP : 2 ^ shift < 2 ^ 64 := Nat.pow_lt_pow_right (by decide) hs
  unfold xx_length
  rw [PAGE_CACHE_SIZE_eq shift hs]
  have h3 : (((2 ^ shift : Nat) : Int) - ((xx_offset shift loff : Nat) : Int))
      = ((2 ^ shift - xx_offset shift loff : Nat) : Int) := by
    omega
  rw [h3, u64_natCast _ (by omega)]
  omega

/-- The read loop returns whenever the fuel is at least the bytes left, at every
position and for every outcome of the copies. -/
theorem xx_read_loop_terminates (shift : Nat) (hs : shift < 64) (zp : Nat → Nat → Byte)
    (cp : Nat → Nat → Nat)
    (size : Nat) :
    ∀ (fuel : Nat) (mapping : AddressSpace) (ubuf : Nat → Byte) (loff : Int) (nleft u : Nat),
      nleft ≤ fuel →
      ∃ r, xx_read_loop shift zp cp size fuel mapping ubuf loff nleft u = some r := by
  intro fuel
  induction fuel with
  | zero =>
    intro mapping ubuf loff nleft u hf
    have h0 : nleft = 0 := by omega
    subst h0
    exact ⟨_, xx_read_loop_done _ _ _ _ _ _ _ _ _⟩
  | succ fuel ih =>
    intro mapping ubuf loff nleft u hf
    by_cases h0 : nleft = 0
    · subst h0
      exact ⟨_, xx_read_loop_done _ _ _ _ _ _ _ _ _⟩
    · obtain ⟨hl1, _, hl3⟩ := xx_length_bounds shift hs loff nleft (by omega)
      rw [xx_read_loop]
      simp only [h0, if_false]
      split
      · exact ⟨_, rfl⟩
      · exact ih _ _ _ _ _ (by omega)

/-- The write loop returns whenever the fuel is at least the bytes left, at every
position and for every outcome of the allocations and copies. -/
theorem xx_write_loop_terminates (shift : Nat) (hs : shift < 64)
    (alloc : Nat → Option (Nat → Byte)) (cp : Nat → Nat → Nat) (ubuf : Nat → Byte) (size : Nat) :
    ∀ (fuel : Nat) (mapping : AddressSpace) (loff : Int) (nleft u : Nat),
      nleft ≤ fuel →
      ∃ r, xx_write_loop shift alloc cp ubuf size fuel mapping loff nleft u = some r := by
  intro fuel
  induction fuel with
  | zero =>
    intro mapping loff nleft u hf
    have h0 : nleft = 0 := by omega
    subst h0
    exact ⟨_, xx_write_loop_done _ _ _ _ _ _ _ _ _⟩
  | succ fuel ih =>
    intro mapping loff nleft u hf
    by_cases h0 : nleft = 0
    · subst h0
      exact ⟨_, xx_write_loop_done _ _ _ _ _ _ _ _ _⟩
    · obtain ⟨hl1, _, hl3⟩ := xx_length_bounds shift hs loff nleft (by omega)
      rw [xx_write_loop]
      simp only [h0, if_false]
      cases hfc : find_or_create_page alloc mapping (xx_pgoff shift loff) with
      | none => exact ⟨_, rfl⟩
      | some pr =>
        obtain ⟨page, m1⟩ := pr
        simp only []
        split
        · exact ⟨_, rfl⟩
        · exact ih _ _ _ _ (by omega)

theorem xx_subranges_done (shift fuel : Nat) (loff : Int) :
    xx_subranges shift fuel loff 0 = [] := by
  unfold xx_subranges
  simp

theorem xx_subranges_step (shift fuel : Nat) (loff : Int) (nleft : Nat) (hn : nleft ≠ 0) :
    xx_subranges shift (fuel + 1) loff nleft =
      { loff := loff, nleft := nleft, pgoff := xx_pgoff shift loff,
        offset := xx_offset shift loff, length := xx_length shift loff nleft } ::
        xx_subranges shift fuel (s64 (loff + (xx_length shift loff nleft : Int)))
          (nleft - xx_length shift loff nleft) := by
  rw [xx_subranges]
  simp only [hn, if_false]

/-- Every iteration, at every position: bytes are left, the in-page offset is
below the page size, and the length is at least 1, at most what is left of the
page and at most the bytes left. -/
theorem xx_subranges_bounds (shift : Nat) (hs : shift < 64) :
    ∀ (fuel : Nat) (loff : Int) (nleft : Nat) (e : SubRange),
      e ∈ xx_subranges shift fuel loff nleft →
      e.pgoff = xx_pgoff shift e.loff ∧ e.offset = xx_offset shift e.loff ∧
      e.length = xx_length shift e.loff e.nleft ∧
      0 < e.nleft ∧ e.offset < 2 ^ shift ∧ 1 ≤ e.length ∧
      e.length ≤ 2 ^ shift - e.offset ∧ e.length ≤ e.nleft := by
  intro fuel
  induction fuel with
  | zero =>
    intro loff nleft e he
    unfold xx_subranges at he
    split at he <;> simp at he
  | succ fuel ih =>
    intro loff nleft e he
    by_cases h0 : nleft = 0
    · subst h0
      rw [xx_subranges_done] at he
      simp at he
    · rw [xx_subranges_step shift fuel loff nleft h0] at he
      rcases List.mem_cons.mp he with h | h
      · subst h
        obtain ⟨h1, h2, h3⟩ := xx_length_bounds shift hs loff nleft (by omega)
        exact ⟨rfl, rfl, rfl, Nat.pos_of_ne_zero h0, xx_offset_lt shift hs loff, h1, h2, h3⟩
      · exact ih _ _ e h

/-- The loops make at most as many iterations as there are bytes to transfer. -/
theorem xx_subranges_length_le (shift : Nat) (hs : shift < 64) :
    ∀ (fuel : Nat) (loff : Int) (nleft : Nat),
      (xx_subranges shift fuel loff nleft).length ≤ nleft := by
  intro fuel
  induction fuel with
  | zero =>
    intro loff nleft
    unfold xx_subranges
    split <;> simp
  | succ fuel ih =>
    intro loff nleft
    by_cases h0 : nleft = 0
    · subst h0
      rw [xx_subranges_done]
      simp
    · rw [xx_subranges_step shift fuel loff nleft h0]
      obtain ⟨h1, _, h3⟩ := xx_length_bounds shift hs loff nleft (by omega)
      have := ih (s64 (loff + (xx_length shift loff nleft : Int)))
        (nleft - xx_length shift loff nleft)
      simp only [List.length_cons]
      omega

/-- From a non-negative position the iterations follow one another from `p` to
`p + nleft`, each inside the page of its position. -/
theorem xx_subranges_cover (shift : Nat) (hs : shift < 64) :
    ∀ (fuel p nleft : Nat), nleft ≤ fuel → p + nleft < 2 ^ 63 →
      consecutive (xx_subranges shift fuel (p : Int) nleft) (p : Int) ((p + nleft : Nat) : Int) ∧
      ∀ e ∈ xx_subranges shift fuel (p : Int) nleft,
        ∃ a : Nat, e.loff = (a : Int) ∧ e.pgoff = a / 2 ^ shift ∧ e.offset = a % 2 ^ shift ∧
          p ≤ a ∧ a + e.length ≤ p + nleft := by
  intro fuel
  induction fuel with
  | zero =>
    intro p nleft hf _
    have h0 : nleft = 0 := by omega
    subst h0
    rw [xx_subranges_done]
    exact ⟨rfl, fun e he => by simp at he⟩
  | succ fuel ih =>
    intro p nleft hf hp
    by_cases h0 : nleft = 0
    · subst h0
      rw [xx_subranges_done]
      exact ⟨rfl, fun e he => by simp at he⟩
    · obtain ⟨hl1, _, hl3⟩ := xx_length_bounds shift hs (p : Int) nleft (by omega)
      rw [xx_subranges_step shift fuel (p : Int) nleft h0]
      generalize hL : xx_length shift (p : Int) nleft = L at *
      have e1 : s64 ((p : Int) + (L : Int)) = ((p + L : Nat) : Int) := by
        rw [← Int.natCast_add]
        exact s64_natCast _ (by omega)
      rw [e1]
      obtain ⟨hc, hm⟩ := ih (p + L) (nleft - L) (by omega) (by omega)
      have e2 : p + L + (nleft - L) = p + nleft := by omega
      rw [e2] at hc
      constructor
      · refine ⟨rfl, ?_⟩
        simp only []
        rw [← Int.natCast_add]
        exact hc
      · intro e he
        rcases List.mem_cons.mp he with h | h
        · subst h
          exact ⟨p, rfl, xx_pgoff_natCast shift p (by omega),
            xx_offset_natCast shift p (by omega), le_refl _, by simp only []; omega⟩
        · obtain ⟨a, ha1, ha2, ha3, ha4, ha5⟩ := hm e h
          exact ⟨a, ha1, ha2, ha3, by omega, by omega⟩

/-- While no copy fails, the read loop is the iterations of `xx_subranges`, each
copying its sub-range to the user buffer. -/
theorem xx_read_loop_subranges (shift : Nat) (zp : Nat → Nat → Byte) (cp : Nat → Nat → Nat)
    (hcp : ∀ a b, cp a b = 0)
    (size : Nat) :
    ∀ (fuel : Nat) (mapping : AddressSpace) (ubuf : Nat → Byte) (loff : Int) (nleft u : Nat)
      (r : IOResult),
      xx_read_loop shift zp cp size fuel mapping ubuf loff nleft u = some r →
      r.mapping = mapping ∧
      r.ubuf
        = ((xx_subranges shift fuel loff nleft).foldl (read_subrange zp mapping) (ubuf, u)).1 := by
  intro fuel
  induction fuel with
  | zero =>
    intro mapping ubuf loff nleft u r h
    unfold xx_read_loop at h
    unfold xx_subranges
    by_cases h0 : nleft = 0
    · simp only [h0, if_true, Option.some.injEq] at h ⊢
      subst h
      exact ⟨rfl, rfl⟩
    · simp [h0] at h
  | succ fuel ih =>
    intro mapping ubuf loff nleft u r h
    by_cases h0 : nleft = 0
    · subst h0
      rw [xx_read_loop_done] at h
      rw [xx_subranges_done]
      simp only [Option.some.injEq] at h
      subst h
      exact ⟨rfl, rfl⟩
    · rw [xx_read_loop] at h
      simp only [h0, if_false, hcp, Nat.zero_min, Nat.lt_irrefl, Nat.sub_zero] at h
      rw [xx_subranges_step shift fuel loff nleft h0, List.foldl_cons]
      exact ih _ _ _ _ _ r h

/-- While no allocation and no copy fails, the write loop is the iterations of
`xx_subranges`, each copying its sub-range into its page. -/
theorem xx_write_loop_subranges (shift : Nat) (alloc : Nat → Option (Nat → Byte))
    (cp : Nat → Nat → Nat) (hcp : ∀ a b, cp a b = 0) (hal : ∀ i, alloc i ≠ none)
    (ubuf : Nat → Byte) (size : Nat) :
    ∀ (fuel : Nat) (mapping : AddressSpace) (loff : Int) (nleft u : Nat) (w : IOResult),
      xx_write_loop shift alloc cp ubuf size fuel mapping loff nleft u = some w →
      w.mapping
        = ((xx_subranges shift fuel loff nleft).foldl (write_subrange alloc ubuf) (mapping, u)).1 := by
  intro fuel
  induction fuel with
  | zero =>
    intro mapping loff nleft u w h
    unfold xx_write_loop at h
    unfold xx_subranges
    by_cases h0 : nleft = 0
    · simp only [h0, if_true, Option.some.injEq] at h ⊢
      subst h
      rfl
    · simp [h0] at h
  | succ fuel ih =>
    intro mapping loff nleft u w h
    by_cases h0 : nleft = 0
    · subst h0
      rw [xx_write_loop_done] at h
      rw [xx_subranges_done]
      simp only [Option.some.injEq] at h
      subst h
      rfl
    · rw [xx_write_loop] at h
      simp only [h0, if_false] at h
      rw [xx_subranges_step shift fuel loff nleft h0, List.foldl_cons]
      cases hfc : find_or_create_page alloc mapping (xx_pgoff shift loff) with
      | none => exact absurd (find_or_create_page_none alloc mapping _ hfc) (hal _)
      | some pr =>
        obtain ⟨page, m1⟩ := pr
        rw [hfc] at h
        simp only [hcp, Nat.zero_min, Nat.lt_irrefl, if_false] at h
        have e : write_subrange alloc ubuf (mapping, u)
            { loff := loff, nleft := nleft, pgoff := xx_pgoff shift loff,
              offset := xx_offset shift loff, length := xx_length shift loff nleft }
            = (m1.set (xx_pgoff shift loff) (mark_written
                { page with
                  data := copy_from_user page.data (xx_offset shift loff)
                    (fun i => ubuf (u + i)) (xx_length shift loff nleft) 0 }),
                u + xx_length shift loff nleft) := by
          simp only [write_subrange, hfc]
        rw [e]
        exact ih _ _ _ _ w h

/-- C19 (page-bounded progress).  With `size` iterations allowed, `xx_read` and
`xx_write` return at every position, for every size and every outcome of copies
and allocations; the iterations are at most `size`, and in each the in-page
offset is below the page size and the length is at least 1, at most the rest of
the page and at most the bytes left.  From a non-negative position the
sub-ranges follow one another from `p` to `p + size`, each within the page of
its position, and when no copy and no allocation fails the calls consist of
exactly these iterations. -/
theorem xx_rw_page_bounded_progress (shift : Nat) (hs : shift < 64) :
    (∀ (zp : Nat → Nat → Byte) (cp : Nat → Nat → Nat) (mapping : AddressSpace)
        (ubuf : Nat → Byte) (size : Nat) (loff : Int),
        ∃ r, xx_read shift zp cp mapping ubuf size loff = some r) ∧
    (∀ (alloc : Nat → Option (Nat → Byte)) (cp : Nat → Nat → Nat) (mapping : AddressSpace)
        (ubuf : Nat → Byte) (size : Nat) (loff : Int),
        ∃ w, xx_write shift alloc cp mapping ubuf size loff = some w) ∧
    (∀ (size : Nat) (loff : Int),
        (xx_subranges shift size loff size).length ≤ size ∧
        ∀ e ∈ xx_subranges shift size loff size,
          e.offset = xx_offset shift e.loff ∧ e.length = xx_length shift e.loff e.nleft ∧
          e.offset < 2 ^ shift ∧ 1 ≤ e.length ∧ e.length ≤ 2 ^ shift - e.offset ∧
          e.length ≤ e.nleft) ∧
    (∀ size p : Nat, p + size < 2 ^ 63 →
        consecutive (xx_subranges shift size (p : Int) size) (p : Int) ((p + size : Nat) : Int) ∧
        ∀ e ∈ xx_subranges shift size (p : Int) size,
          ∃ a : Nat, e.loff = (a : Int) ∧ e.pgoff = a / 2 ^ shift ∧ e.offset = a % 2 ^ shift ∧
            p ≤ a ∧ a + e.length ≤ p + size) ∧
    (∀ (zp : Nat → Nat → Byte) (cp : Nat → Nat → Nat), (∀ a b, cp a b = 0) →
        ∀ (mapping : AddressSpace) (ubuf : Nat → Byte) (size : Nat) (loff : Int),
        ∃ r, xx_read shift zp cp mapping ubuf size loff = some r ∧
          r.ubuf = ((xx_subranges shift size loff size).foldl (read_subrange zp mapping)
            (ubuf, 0)).1) ∧
    (∀ (alloc : Nat → Option (Nat → Byte)) (cp : Nat → Nat → Nat),
        (∀ a b, cp a b = 0) → (∀ i, alloc i ≠ none) →
        ∀ (mapping : AddressSpace) (ubuf : Nat → Byte) (size : Nat) (loff : Int),
        ∃ w, xx_write shift alloc cp mapping ubuf size loff = some w ∧
          w.mapping = ((xx_subranges shift size loff size).foldl (write_subrange alloc ubuf)
            (mapping, 0)).1) := by
  refine ⟨?_, ?_, ?_, ?_, ?_, ?_⟩
  · intro zp cp mapping ubuf size loff
    exact xx_read_loop_terminates shift hs zp cp size size mapping ubuf loff size 0 (le_refl _)
  · intro alloc cp mapping ubuf size loff
    exact xx_write_loop_terminates shift hs alloc cp ubuf size size mapping loff size 0 (le_refl _)
  · intro size loff
    refine ⟨xx_subranges_length_le shift hs size loff size, ?_⟩
    intro e he
    obtain ⟨_, h2, h3, _, h5, h6, h7, h8⟩ := xx_subranges_bounds shift hs size loff size e he
    exact ⟨h2, h3, h5, h6, h7, h8⟩
  · intro size p hp
    exact xx_subranges_cover shift hs size p size (le_refl _) hp
  · intro zp cp hcp mapping ubuf size loff
    obtain ⟨r, hr⟩ :=
      xx_read_loop_terminates shift hs zp cp size size mapping ubuf loff size 0 (le_refl _)
    exact ⟨r, hr,
      (xx_read_loop_subranges shift zp cp hcp size size mapping ubuf loff size 0 r hr).2⟩
  · intro alloc cp hcp hal mapping ubuf size loff
    obtain ⟨w, hw⟩ :=
      xx_write_loop_terminates shift hs alloc cp ubuf size size mapping loff size 0 (le_refl _)
    exact ⟨w, hw,
      xx_write_loop_subranges shift alloc cp hcp hal ubuf size size mapping loff size 0 w hw⟩

theorem xx_rw_page_bounded_progress_witness :
    xx_subranges 12 5000 ((4000 : Nat) : Int) 5000
      = [{ loff := 4000, nleft := 5000, pgoff := 0, offset := 4000, length := 96 },
         { loff := 4096, nleft := 4904, pgoff := 1, offset := 0, length := 4096 },
         { loff := 8192, nleft := 808, pgoff := 2, offset := 0, length := 808 }] ∧
    consecutive (xx_subranges 12 5000 ((4000 : Nat) : Int) 5000) ((4000 : Nat) : Int)
      ((4000 + 5000 : Nat) : Int) ∧
    (∃ r, xx_read 12 zp_sample (fun _ _ => 0) mapping_sample (fun _ => 9) 5000
        ((4000 : Nat) : Int) = some r ∧
      r.ubuf = ((xx_subranges 12 5000 ((4000 : Nat) : Int) 5000).foldl
        (read_subrange zp_sample mapping_sample) (fun _ => 9, 0)).1) :=
  ⟨by decide,
    ((xx_rw_page_bounded_progress 12 (by decide)).2.2.2.1 5000 4000 (by norm_num)).1,
    (xx_rw_page_bounded_progress 12 (by decide)).2.2.2.2.1 zp_sample (fun _ _ => 0)
      (fun _ _ => rfl)
      mapping_sample (fun _ => 9) 5000 ((4000 : Nat) : Int)⟩


end XX
